import Mathlib

/-!
Verification of the Clipboard repository's project-file patch scripts
(`add_share_extension.py`, `fix_build_config.py`, `fix_share_extension.py`,
`complete_share_extension.py`, `Clipboard/create_working_project.py`).

The scripts read a text file, apply regular-expression keyed splices, and
write the result back.  We embed them shallowly: file content is a
`List Char` (the inputs of interest are ASCII, so characters coincide with
bytes), the module-level `generate_uuid()` randomness becomes an injected
identifier source `u : Nat → List Char` (`u n` models the result of the
`n`-th `generate_uuid()` call of a run), and a script run is a pure function
returning its boolean result together with the content it wrote back, if any.

The regular expressions used by the scripts are simple enough that each one
is embedded as a deterministic matcher; determinism of the greedy pieces is
argued in the doc comment of each matcher.
-/

set_option maxRecDepth 200000

/-- Result of one run of a patch script, as it affects the file system:
`returnValue` is the Python function's boolean result, and `written` is
`some c` when the script wrote content `c` back to its output file and
`none` when the function returned without writing. -/
structure ScriptResult where
  returnValue : Bool
  written : Option (List Char)
deriving Repr, DecidableEq

/-- File content after a run: the written content if a write occurred,
the previous content otherwise. -/
def contentAfter (r : ScriptResult) (c : List Char) : List Char :=
  (r.written).getD c

/-- Scanning loop of `replaceAll`; `fuel` bounds the number of steps and is
always supplied as the length of the scanned text, so it never runs out
(skipping a nonempty matched pattern consumes at least one character). -/
def replaceAllAux (pat new : List Char) : Nat → List Char → List Char
  | 0, s => s
  | _, [] => []
  | fuel + 1, c :: t =>
    if pat ≠ [] ∧ pat.isPrefixOf (c :: t) then
      new ++ replaceAllAux pat new fuel ((c :: t).drop pat.length)
    else
      c :: replaceAllAux pat new fuel t

/-- Python `str.replace(pat, new)` for nonempty `pat`: replace every
non-overlapping occurrence of `pat`, scanning left to right.  (The scripts
only ever call `str.replace` with nonempty patterns; for `pat = []` this
returns the string unchanged.) -/
def replaceAll (pat new s : List Char) : List Char :=
  replaceAllAux pat new s.length s

/-- The fuel of `replaceAllAux` is irrelevant as long as it covers the
length of the text. -/
theorem replaceAllAux_congr {pat new : List Char} :
    ∀ (f1 f2 : Nat) (s : List Char), s.length ≤ f1 → s.length ≤ f2 →
      replaceAllAux pat new f1 s = replaceAllAux pat new f2 s := by
  intro f1
  induction f1 with
  | zero =>
    intro f2 s h1 _
    have hs : s = [] := List.eq_nil_of_length_eq_zero (Nat.le_zero.mp h1)
    subst hs
    cases f2 <;> rfl
  | succ f1 ih =>
    intro f2 s h1 h2
    cases s with
    | nil => cases f2 <;> rfl
    | cons c t =>
      cases f2 with
      | zero => simp at h2
      | succ f2 =>
        show (if pat ≠ [] ∧ pat.isPrefixOf (c :: t) then
            new ++ replaceAllAux pat new f1 ((c :: t).drop pat.length)
          else c :: replaceAllAux pat new f1 t) =
          (if pat ≠ [] ∧ pat.isPrefixOf (c :: t) then
            new ++ replaceAllAux pat new f2 ((c :: t).drop pat.length)
          else c :: replaceAllAux pat new f2 t)
        by_cases hp : pat ≠ [] ∧ pat.isPrefixOf (c :: t)
        · rw [if_pos hp, if_pos hp]
          have hplen : 0 < pat.length := List.length_pos.mpr hp.1
          have hd : ((c :: t).drop pat.length).length ≤ f1 := by
            simp only [List.length_drop, List.length_cons]
            simp only [List.length_cons] at h1
            omega
          have hd2 : ((c :: t).drop pat.length).length ≤ f2 := by
            simp only [List.length_drop, List.length_cons]
            simp only [List.length_cons] at h2
            omega
          rw [ih f2 _ hd hd2]
        · rw [if_neg hp, if_neg hp]
          simp only [List.length_cons] at h1 h2
          rw [ih f2 t (by omega) (by omega)]

/-- Python's substring test `pat in s`. -/
def containsSub (pat s : List Char) : Bool :=
  (List.range (s.length + 1)).any (fun i => pat.isPrefixOf (s.drop i))

/-- Occurrence of `pat` in `s` at index `i`. -/
def occursAt (pat s : List Char) (i : Nat) : Prop := pat <+: s.drop i

/-- Number of indices of `s` at which `pat` occurs. -/
def countOcc (pat s : List Char) : Nat :=
  ((List.range (s.length + 1)).filter (fun i => pat.isPrefixOf (s.drop i))).length

/-- The text ` Begin <name> section`: the part of the scripts' unescaped
section-begin pattern `/* Begin <name> section */` that is matched
literally (the `*` of `/*` and `*/` are regex quantifiers there, applying
to the preceding `/` and space respectively). -/
def beginCore (name : String) : List Char :=
  (" Begin " ++ name ++ " section").toList

/-- The literally matched part ` End <name> section` of the scripts'
unescaped section-end pattern, as in `beginCore`. -/
def endCore (name : String) : List Char :=
  (" End " ++ name ++ " section").toList

/-- The literal begin-marker comment as it appears in a project file. -/
def beginMarker (name : String) : List Char :=
  ("/* Begin " ++ name ++ " section */").toList

/-- The literal end-marker comment as it appears in a project file; the
scripts use this string with `str.replace` after a regex search. -/
def endMarker (name : String) : List Char :=
  ("/* End " ++ name ++ " section */").toList

/-- Length consumed by the scripts' section-begin regex
`/{0,} Begin <name> section {0,}/` matching at the head of `s`, or `none`.
The greedy runs are deterministic: the literal after the `/` run starts
with a space and the literal after the space run is `/`, so backtracking
into a run can never succeed. -/
def beginMatchLen (name : String) (s : List Char) : Option Nat :=
  let k := (s.takeWhile (fun c => c = '/')).length
  let t := s.drop k
  if (beginCore name).isPrefixOf t then
    let t2 := t.drop (beginCore name).length
    let m := (t2.takeWhile (fun c => c = ' ')).length
    match t2.drop m with
    | '/' :: _ => some (k + (beginCore name).length + m + 1)
    | _ => none
  else none

/-- Length consumed by the scripts' section-end regex
`/{0,} End <name> section {0,}/` matching at the head of `s`, or `none`;
deterministic as in `beginMatchLen`. -/
def endMatchLen (name : String) (s : List Char) : Option Nat :=
  let k := (s.takeWhile (fun c => c = '/')).length
  let t := s.drop k
  if (endCore name).isPrefixOf t then
    let t2 := t.drop (endCore name).length
    let m := (t2.takeWhile (fun c => c = ' ')).length
    match t2.drop m with
    | '/' :: _ => some (k + (endCore name).length + m + 1)
    | _ => none
  else none

/-- A successful `endMatchLen` consumes at least one and at most all
characters of `s`. -/
theorem endMatchLen_bounds {name : String} {s : List Char} {L : Nat}
    (h : endMatchLen name s = some L) : 0 < L ∧ L ≤ s.length := by
  simp only [endMatchLen] at h
  split at h
  · split at h
    · rename_i y heq
      have hL : _ = L := (Option.some.injEq _ _).mp h
      have hd : ((s.drop ((s.takeWhile (fun c => c = '/')).length)).drop
          ((endCore name).length)).drop
          (((s.drop ((s.takeWhile (fun c => c = '/')).length)).drop
            ((endCore name).length)).takeWhile (fun c => c = ' ')).length ≠ [] := by
        rw [heq]; simp
      rw [List.drop_drop, List.drop_drop] at hd
      have hlt := List.length_lt_of_drop_ne_nil hd
      omega
    · exact absurd h (by simp)
  · exact absurd h (by simp)

/-- The lazy tail `.*?/{0,} End <name> section {0,}/` of the section
pattern: total number of characters of `s` consumed by the shortest match
(the lazy `.*?` grows one character at a time), or `none`. -/
def endScanLen (name : String) : List Char → Option Nat
  | [] => none
  | c :: t =>
    match endMatchLen name (c :: t) with
    | some L => some L
    | none => (endScanLen name t).map (· + 1)

/-- Length consumed by the whole section pattern
`(/{0,} Begin <name> section {0,}/.*?/{0,} End <name> section {0,}/)`
matching at the head of `s`, or `none`. -/
def sectionMatchLen (name : String) (s : List Char) : Option Nat :=
  match beginMatchLen name s with
  | none => none
  | some b =>
    match endScanLen name (s.drop b) with
    | none => none
    | some e => some (b + e)

/-- `re.search` of the section pattern with `re.DOTALL`: try the whole
pattern at each position, left to right; on success return the text before
the match, the matched text (`group(1)` — the parentheses enclose the whole
pattern), and the text after. -/
def searchSectionAux (name : String) (pre s : List Char) :
    Option (List Char × List Char × List Char) :=
  match sectionMatchLen name s with
  | some L => some (pre, s.take L, s.drop L)
  | none =>
    match s with
    | [] => none
    | c :: t => searchSectionAux name (pre ++ [c]) t

/-- The section-splice step shared by `add_share_extension.py`,
`fix_build_config.py` and `complete_share_extension.py`: search the section
pattern; if it matches, build
`new_section = section.replace(endMarker, frag + "\n" + endMarker)` and
return `content.replace(section, new_section)`; if it does not match,
silently skip and return the content unchanged. -/
def spliceSection (name : String) (frag content : List Char) : List Char :=
  match searchSectionAux name [] content with
  | none => content
  | some (_, sec, _) =>
    let newSec := replaceAll (endMarker name) (frag ++ '\n' :: endMarker name) sec
    replaceAll sec newSec content

/-- The splice used by `create_working_project.py` (lines 100-102, 113,
127, 192): `re.sub(r'(/* End <name> section */)', frag + '\n' + r'\1',
content)` — every match of the unescaped end-marker pattern is replaced by
the fragment, a newline, and the matched text. -/
def subEndMarker (name : String) (frag : List Char) (s : List Char) : List Char :=
  match h : endMatchLen name s with
  | some L => frag ++ '\n' :: (s.take L ++ subEndMarker name frag (s.drop L))
  | none =>
    match s with
    | [] => []
    | c :: t => c :: subEndMarker name frag t
termination_by s.length
decreasing_by
  · have h1 := endMatchLen_bounds h
    simp only [List.length_drop]
    omega
  · simp

/-! ### The literal fragments inserted by the scripts

Transcribed byte-for-byte from the Python string literals; `\x7b` and
`\x7d` are the brace characters. -/

/-- Fragment `share_extension_target` of add_share_extension.py (lines 45-79), as a function of the interpolated uuids. -/
def shareExtensionTargetFrag (mainUuid : List Char)  (u0 : List Char)  (u1 : List Char)  (u2 : List Char)  (u3 : List Char)  (u4 : List Char)  (u8 : List Char) : List Char :=
  "\n\t\t016547732E62440700C46AD8 /* Clipboard */ = \x7b\n\t\t\tisa = PBXNativeTarget;\n\t\t\tbuildConfigurationList = 0165478A2E62440800C46AD8 /* Build configuration list for PBXNativeTarget \"Clipboard\" */;\n\t\t\tbuildPhases = (\n\t\t\t\t016547702E62440700C46AD8 /* Sources */,\n\t\t\t\t016547712E62440700C46AD8 /* Frameworks */,\n\t\t\t\t016547722E62440700C46AD8 /* Resources */,\n\t\t\t);\n\t\t\tbuildRules = (\n\t\t\t);\n\t\t\tdependencies = (\n\t\t\t);\n\t\t\tname = Clipboard;\n\t\t\tproductName = Clipboard;\n\t\t\tproductReference = ".toList ++ mainUuid ++ ";\n\t\t\tproductType = \"com.apple.product-type.application\";\n\t\t\x7d;\n\t\t".toList ++ u0 ++ " /* ShareExtension */ = \x7b\n\t\t\tisa = PBXNativeTarget;\n\t\t\tbuildConfigurationList = ".toList ++ u1 ++ " /* Build configuration list for PBXNativeTarget \"ShareExtension\" */;\n\t\t\tbuildPhases = (\n\t\t\t\t".toList ++ u2 ++ " /* Sources */,\n\t\t\t\t".toList ++ u3 ++ " /* Frameworks */,\n\t\t\t\t".toList ++ u4 ++ " /* Resources */,\n\t\t\t);\n\t\t\tbuildRules = (\n\t\t\t);\n\t\t\tdependencies = (\n\t\t\t);\n\t\t\tname = ShareExtension;\n\t\t\tproductName = ShareExtension;\n\t\t\tproductReference = ".toList ++ u8 ++ ";\n\t\t\tproductType = \"com.apple.product-type.app-extension\";\n\t\t\x7d;".toList

/-- Fragment `share_extension_phases` of add_share_extension.py (lines 93-117). -/
def shareExtensionPhasesFrag (u2 : List Char)  (u7 : List Char)  (u3 : List Char)  (u4 : List Char)  (u6 : List Char)  (u8 : List Char) : List Char :=
  "\n\t\t".toList ++ u2 ++ " /* Sources */ = \x7b\n\t\t\tisa = PBXSourcesBuildPhase;\n\t\t\tbuildActionMask = 2147483647;\n\t\t\tfiles = (\n\t\t\t\t".toList ++ u7 ++ " /* ShareViewController.swift in Sources */,\n\t\t\t);\n\t\t\trunOnlyForDeploymentPostprocessing = 0;\n\t\t\x7d;\n\t\t".toList ++ u3 ++ " /* Frameworks */ = \x7b\n\t\t\tisa = PBXFrameworksBuildPhase;\n\t\t\tbuildActionMask = 2147483647;\n\t\t\tfiles = (\n\t\t\t);\n\t\t\trunOnlyForDeploymentPostprocessing = 0;\n\t\t\x7d;\n\t\t".toList ++ u4 ++ " /* Resources */ = \x7b\n\t\t\tisa = PBXResourcesBuildPhase;\n\t\t\tbuildActionMask = 2147483647;\n\t\t\tfiles = (\n\t\t\t\t".toList ++ u6 ++ " /* MainInterface.storyboard in Resources */,\n\t\t\t\t".toList ++ u8 ++ " /* ShareExtensionIcon.png in Resources */,\n\t\t\t);\n\t\t\trunOnlyForDeploymentPostprocessing = 0;\n\t\t\x7d;".toList

/-- Constant `build_config_list` of fix_build_config.py (lines 18-27). -/
def buildConfigListFrag : List Char :=
  "\n\t\t5EC26EDF031149CC90C5184B /* Build configuration list for PBXNativeTarget \"ShareExtension\" */ = \x7b\n\t\t\tisa = XCConfigurationList;\n\t\t\tbuildConfigurations = (\n\t\t\t\t5EC26EDE031149CC90C5184B /* Debug */,\n\t\t\t\t5EC26EDD031149CC90C5184B /* Release */,\n\t\t\t);\n\t\t\tdefaultConfigurationIsVisible = 0;\n\t\t\tdefaultConfigurationName = Release;\n\t\t\x7d;".toList

/-- Constant `share_extension_debug_config` of fix_build_config.py (lines 30-59). -/
def shareExtensionDebugConfigFrag : List Char :=
  "\n\t\t5EC26EDE031149CC90C5184B /* Debug */ = \x7b\n\t\t\tisa = XCBuildConfiguration;\n\t\t\tbuildSettings = \x7b\n\t\t\t\tASSETCATALOG_COMPILER_APPICON_NAME = AppIcon;\n\t\t\t\tASSETCATALOG_COMPILER_GLOBAL_ACCENT_COLOR_NAME = AccentColor;\n\t\t\t\tCODE_SIGN_STYLE = Automatic;\n\t\t\t\tCURRENT_PROJECT_VERSION = 1;\n\t\t\t\tDEVELOPMENT_TEAM = 4J6264AA5S;\n\t\t\t\tENABLE_PREVIEWS = YES;\n\t\t\t\tGENERATE_INFOPLIST_FILE = YES;\n\t\t\t\tINFOPLIST_FILE = ShareExtension/Info.plist;\n\t\t\t\tINFOPLIST_KEY_CFBundleDisplayName = \"Save to Clipboard\";\n\t\t\t\tINFOPLIST_KEY_NSHumanReadableCopyright = \"\";\n\t\t\t\tIPHONEOS_DEPLOYMENT_TARGET = 18.0;\n\t\t\t\tLD_RUNPATH_SEARCH_PATHS = (\n\t\t\t\t\t\"$(inherited)\",\n\t\t\t\t\t\"@executable_path/Frameworks\",\n\t\t\t\t\t\"@executable_path/../../Frameworks\",\n\t\t\t\t);\n\t\t\t\tMARKETING_VERSION = 1.0;\n\t\t\t\tPRODUCT_BUNDLE_IDENTIFIER = com.tamaraosseiran.Clipboard.ShareExtension;\n\t\t\t\tPRODUCT_NAME = \"$(TARGET_NAME)\";\n\t\t\t\tSKIP_INSTALL = YES;\n\t\t\t\tSWIFT_EMIT_LOC_STRINGS = YES;\n\t\t\t\tSWIFT_VERSION = 5.0;\n\t\t\t\tTARGETED_DEVICE_FAMILY = \"1,2\";\n\t\t\t\x7d;\n\t\t\tname = Debug;\n\t\t\x7d;".toList

/-- Constant `share_extension_release_config` of fix_build_config.py (lines 61-90). -/
def shareExtensionReleaseConfigFrag : List Char :=
  "\n\t\t5EC26EDD031149CC90C5184B /* Release */ = \x7b\n\t\t\tisa = XCBuildConfiguration;\n\t\t\tbuildSettings = \x7b\n\t\t\t\tASSETCATALOG_COMPILER_APPICON_NAME = AppIcon;\n\t\t\t\tASSETCATALOG_COMPILER_GLOBAL_ACCENT_COLOR_NAME = AccentColor;\n\t\t\t\tCODE_SIGN_STYLE = Automatic;\n\t\t\t\tCURRENT_PROJECT_VERSION = 1;\n\t\t\t\tDEVELOPMENT_TEAM = 4J6264AA5S;\n\t\t\t\tENABLE_PREVIEWS = YES;\n\t\t\t\tGENERATE_INFOPLIST_FILE = YES;\n\t\t\t\tINFOPLIST_FILE = ShareExtension/Info.plist;\n\t\t\t\tINFOPLIST_KEY_CFBundleDisplayName = \"Save to Clipboard\";\n\t\t\t\tINFOPLIST_KEY_NSHumanReadableCopyright = \"\";\n\t\t\t\tIPHONEOS_DEPLOYMENT_TARGET = 18.0;\n\t\t\t\tLD_RUNPATH_SEARCH_PATHS = (\n\t\t\t\t\t\"$(inherited)\",\n\t\t\t\t\t\"@executable_path/Frameworks\",\n\t\t\t\t\t\"@executable_path/../../Frameworks\",\n\t\t\t\t);\n\t\t\t\tMARKETING_VERSION = 1.0;\n\t\t\t\tPRODUCT_BUNDLE_IDENTIFIER = com.tamaraosseiran.Clipboard.ShareExtension;\n\t\t\t\tPRODUCT_NAME = \"$(TARGET_NAME)\";\n\t\t\t\tSKIP_INSTALL = YES;\n\t\t\t\tSWIFT_EMIT_LOC_STRINGS = YES;\n\t\t\t\tSWIFT_VERSION = 5.0;\n\t\t\t\tTARGETED_DEVICE_FAMILY = \"1,2\";\n\t\t\t\x7d;\n\t\t\tname = Release;\n\t\t\x7d;".toList

/-- Fragment `share_extension_target` of fix_share_extension.py (lines 47-65). -/
def fixShareTargetFrag (u0 : List Char)  (u1 : List Char)  (u2 : List Char)  (u3 : List Char)  (u4 : List Char)  (u5 : List Char) : List Char :=
  "\n\t\t".toList ++ u0 ++ " /* ShareExtension */ = \x7b\n\t\t\tisa = PBXNativeTarget;\n\t\t\tbuildConfigurationList = ".toList ++ u1 ++ " /* Build configuration list for PBXNativeTarget \"ShareExtension\" */;\n\t\t\tbuildPhases = (\n\t\t\t\t".toList ++ u2 ++ " /* Sources */,\n\t\t\t\t".toList ++ u3 ++ " /* Frameworks */,\n\t\t\t\t".toList ++ u4 ++ " /* Resources */,\n\t\t\t);\n\t\t\tbuildRules = (\n\t\t\t);\n\t\t\tdependencies = (\n\t\t\t);\n\t\t\tname = ShareExtension;\n\t\t\tproductName = ShareExtension;\n\t\t\tproductReference = ".toList ++ u5 ++ " /* ShareExtension.appex */;\n\t\t\tproductType = \"com.apple.product-type.app-extension\";\n\t\t\x7d;\n\t\t".toList

/-- Fragment `share_extension_phases` of complete_share_extension.py (lines 38-62). -/
def completePhasesFrag (u1 : List Char)  (u5 : List Char)  (u2 : List Char)  (u3 : List Char)  (u6 : List Char)  (u7 : List Char) : List Char :=
  "\n\t\t".toList ++ u1 ++ " /* Sources */ = \x7b\n\t\t\tisa = PBXSourcesBuildPhase;\n\t\t\tbuildActionMask = 2147483647;\n\t\t\tfiles = (\n\t\t\t\t".toList ++ u5 ++ " /* ShareViewController.swift in Sources */,\n\t\t\t);\n\t\t\trunOnlyForDeploymentPostprocessing = 0;\n\t\t\x7d;\n\t\t".toList ++ u2 ++ " /* Frameworks */ = \x7b\n\t\t\tisa = PBXFrameworksBuildPhase;\n\t\t\tbuildActionMask = 2147483647;\n\t\t\tfiles = (\n\t\t\t);\n\t\t\trunOnlyForDeploymentPostprocessing = 0;\n\t\t\x7d;\n\t\t".toList ++ u3 ++ " /* Resources */ = \x7b\n\t\t\tisa = PBXResourcesBuildPhase;\n\t\t\tbuildActionMask = 2147483647;\n\t\t\tfiles = (\n\t\t\t\t".toList ++ u6 ++ " /* MainInterface.storyboard in Resources */,\n\t\t\t\t".toList ++ u7 ++ " /* ShareExtensionIcon.png in Resources */,\n\t\t\t);\n\t\t\trunOnlyForDeploymentPostprocessing = 0;\n\t\t\x7d;".toList

/-- Fragment `share_extension_refs` of complete_share_extension.py (lines 75-81). -/
def completeFileRefsFrag (u4 : List Char)  (u5 : List Char)  (u6 : List Char)  (u7 : List Char)  (u8 : List Char) : List Char :=
  "\n\t\t016547742E62440700C46AD8 /* Clipboard.app */ = \x7bisa = PBXFileReference; explicitFileType = wrapper.application; includeInIndex = 0; path = Clipboard.app; sourceTree = BUILT_PRODUCTS_DIR; \x7d;\n\t\t".toList ++ u4 ++ " /* ShareExtension.appex */ = \x7bisa = PBXFileReference; explicitFileType = \"wrapper.app-extension\"; includeInIndex = 0; path = ShareExtension.appex; sourceTree = BUILT_PRODUCTS_DIR; \x7d;\n\t\t".toList ++ u5 ++ " /* ShareViewController.swift */ = \x7bisa = PBXFileReference; lastKnownFileType = sourcecode.swift; path = ShareViewController.swift; sourceTree = \"<group>\"; \x7d;\n\t\t".toList ++ u6 ++ " /* MainInterface.storyboard */ = \x7bisa = PBXFileReference; lastKnownFileType = file.storyboard; path = MainInterface.storyboard; sourceTree = \"<group>\"; \x7d;\n\t\t".toList ++ u7 ++ " /* ShareExtensionIcon.png */ = \x7bisa = PBXFileReference; lastKnownFileType = image.png; path = ShareExtensionIcon.png; sourceTree = \"<group>\"; \x7d;\n\t\t".toList ++ u8 ++ " /* Info.plist */ = \x7bisa = PBXFileReference; lastKnownFileType = text.plist.xml; path = Info.plist; sourceTree = \"<group>\"; \x7d;".toList

/-- Fragment `share_extension_config` of complete_share_extension.py (lines 94-152); `u9` is the inline `generate_uuid()` call of line 124. -/
def completeConfigFrag (u0 : List Char)  (u9 : List Char) : List Char :=
  "\n\t\t".toList ++ u0 ++ " /* Debug */ = \x7b\n\t\t\tisa = XCBuildConfiguration;\n\t\t\tbuildSettings = \x7b\n\t\t\t\tASSETCATALOG_COMPILER_APPICON_NAME = AppIcon;\n\t\t\t\tASSETCATALOG_COMPILER_GLOBAL_ACCENT_COLOR_NAME = AccentColor;\n\t\t\t\tCODE_SIGN_STYLE = Automatic;\n\t\t\t\tCURRENT_PROJECT_VERSION = 1;\n\t\t\t\tDEVELOPMENT_TEAM = 4J6264AA5S;\n\t\t\t\tENABLE_PREVIEWS = YES;\n\t\t\t\tGENERATE_INFOPLIST_FILE = YES;\n\t\t\t\tINFOPLIST_FILE = ShareExtension/Info.plist;\n\t\t\t\tINFOPLIST_KEY_CFBundleDisplayName = \"Save to Clipboard\";\n\t\t\t\tINFOPLIST_KEY_NSHumanReadableCopyright = \"\";\n\t\t\t\tIPHONEOS_DEPLOYMENT_TARGET = 18.0;\n\t\t\t\tLD_RUNPATH_SEARCH_PATHS = (\n\t\t\t\t\t\"$(inherited)\",\n\t\t\t\t\t\"@executable_path/Frameworks\",\n\t\t\t\t\t\"@executable_path/../../Frameworks\",\n\t\t\t\t);\n\t\t\t\tMARKETING_VERSION = 1.0;\n\t\t\t\tPRODUCT_BUNDLE_IDENTIFIER = com.tamaraosseiran.Clipboard.ShareExtension;\n\t\t\t\tPRODUCT_NAME = \"$(TARGET_NAME)\";\n\t\t\t\tSKIP_INSTALL = YES;\n\t\t\t\tSWIFT_EMIT_LOC_STRINGS = YES;\n\t\t\t\tSWIFT_VERSION = 5.0;\n\t\t\t\tTARGETED_DEVICE_FAMILY = \"1,2\";\n\t\t\t\x7d;\n\t\t\tname = Debug;\n\t\t\x7d;\n\t\t".toList ++ u9 ++ " /* Release */ = \x7b\n\t\t\tisa = XCBuildConfiguration;\n\t\t\tbuildSettings = \x7b\n\t\t\t\tASSETCATALOG_COMPILER_APPICON_NAME = AppIcon;\n\t\t\t\tASSETCATALOG_COMPILER_GLOBAL_ACCENT_COLOR_NAME = AccentColor;\n\t\t\t\tCODE_SIGN_STYLE = Automatic;\n\t\t\t\tCURRENT_PROJECT_VERSION = 1;\n\t\t\t\tDEVELOPMENT_TEAM = 4J6264AA5S;\n\t\t\t\tENABLE_PREVIEWS = YES;\n\t\t\t\tGENERATE_INFOPLIST_FILE = YES;\n\t\t\t\tINFOPLIST_FILE = ShareExtension/Info.plist;\n\t\t\t\tINFOPLIST_KEY_CFBundleDisplayName = \"Save to Clipboard\";\n\t\t\t\tINFOPLIST_KEY_NSHumanReadableCopyright = \"\";\n\t\t\t\tIPHONEOS_DEPLOYMENT_TARGET = 18.0;\n\t\t\t\tLD_RUNPATH_SEARCH_PATHS = (\n\t\t\t\t\t\"$(inherited)\",\n\t\t\t\t\t\"@executable_path/Frameworks\",\n\t\t\t\t\t\"@executable_path/../../Frameworks\",\n\t\t\t\t);\n\t\t\t\tMARKETING_VERSION = 1.0;\n\t\t\t\tPRODUCT_BUNDLE_IDENTIFIER = com.tamaraosseiran.Clipboard.ShareExtension;\n\t\t\t\tPRODUCT_NAME = \"$(TARGET_NAME)\";\n\t\t\t\tSKIP_INSTALL = YES;\n\t\t\t\tSWIFT_EMIT_LOC_STRINGS = YES;\n\t\t\t\tSWIFT_VERSION = 5.0;\n\t\t\t\tTARGETED_DEVICE_FAMILY = \"1,2\";\n\t\t\t\x7d;\n\t\t\tname = Release;\n\t\t\x7d;".toList

/-! ### generate_uuid -/

/-- Python `generate_uuid()` (identical in add_share_extension.py,
fix_share_extension.py, complete_share_extension.py and
create_working_project.py):
`str(uuid.uuid4()).replace('-', '').upper()[:24]`, with the textual form of
the random UUID supplied as `raw` (spec section 9 abstracts the module-level
randomness into an injected identifier source). -/
def generate_uuid (raw : List Char) : List Char :=
  ((raw.filter (fun c => c ≠ '-')).map Char.toUpper).take 24

/-- The lowercase hexadecimal alphabet used by `str(uuid.uuid4())`. -/
def lowerHexChars : List Char := ("0123456789abcdef").toList

/-- The uppercase hexadecimal alphabet. -/
def upperHexChars : List Char := ("0123456789ABCDEF").toList

/-! ### The main-target regex of add_share_extension.py

The pattern (line 32, compiled with `re.DOTALL`) is
`Clipboard.*=.*{.*isa = PBXNativeTarget;.*name = Clipboard;.*productName = Clipboard;.*productReference = ([A-F0-9]{24});`.
Every `.*` is greedy; `([A-F0-9]{24})` is an exact-count group.  We embed
the backtracking matcher directly: `greedyFind` realises a greedy `.*`
(longest consumption first), and the stages consume the literal pieces. -/

/-- Greedy `.*`: run the continuation on the suffixes of the text, the one
with the most characters consumed by `.*` (shortest suffix) first, exactly
as Python's backtracking does for a greedy `.*`. -/
def greedyFind (f : List Char → Option (List Char)) : List Char → Option (List Char)
  | [] => f []
  | c :: t =>
    match greedyFind f t with
    | some r => some r
    | none => f (c :: t)

/-- Literal `productReference = ` of the main-target pattern. -/
def litProdRef : List Char := ("productReference = ").toList

/-- Literal `productName = Clipboard;` of the main-target pattern. -/
def litProdName : List Char := ("productName = Clipboard;").toList

/-- Literal `name = Clipboard;` of the main-target pattern. -/
def litNameClip : List Char := ("name = Clipboard;").toList

/-- Literal `isa = PBXNativeTarget;` of the main-target pattern. -/
def litIsa : List Char := ("isa = PBXNativeTarget;").toList

/-- Literal `Clipboard` opening the main-target pattern. -/
def litClipboard : List Char := ("Clipboard").toList

/-- Tail stage `productReference = ([A-F0-9]{24});` of the main-target
pattern; returns the captured group. -/
def stageRef (s : List Char) : Option (List Char) :=
  if litProdRef.isPrefixOf s then
    let t := s.drop litProdRef.length
    let hx := t.take 24
    if hx.length = 24 ∧ hx.all (fun c => decide (('A' ≤ c ∧ c ≤ 'F') ∨ ('0' ≤ c ∧ c ≤ '9'))) then
      match t.drop 24 with
      | ';' :: _ => some hx
      | _ => none
    else none
  else none

/-- Stage `productName = Clipboard;.*` of the main-target pattern. -/
def stageProdName (s : List Char) : Option (List Char) :=
  if litProdName.isPrefixOf s then greedyFind stageRef (s.drop litProdName.length) else none

/-- Stage `name = Clipboard;.*` of the main-target pattern. -/
def stageNameClip (s : List Char) : Option (List Char) :=
  if litNameClip.isPrefixOf s then greedyFind stageProdName (s.drop litNameClip.length) else none

/-- Stage `isa = PBXNativeTarget;.*` of the main-target pattern. -/
def stageIsa (s : List Char) : Option (List Char) :=
  if litIsa.isPrefixOf s then greedyFind stageNameClip (s.drop litIsa.length) else none

/-- Stage for the literal brace `{.*` of the main-target pattern. -/
def stageBrace (s : List Char) : Option (List Char) :=
  match s with
  | c :: t => if c = '\x7b' then greedyFind stageIsa t else none
  | [] => none

/-- Stage `=.*` of the main-target pattern. -/
def stageEq (s : List Char) : Option (List Char) :=
  match s with
  | c :: t => if c = '=' then greedyFind stageBrace t else none
  | [] => none

/-- Stage `Clipboard.*` opening the main-target pattern. -/
def stageClip (s : List Char) : Option (List Char) :=
  if litClipboard.isPrefixOf s then greedyFind stageEq (s.drop litClipboard.length) else none

/-- `re.search` of the main-target pattern (add_share_extension.py line
32): leftmost position at which the whole pattern matches; returns
`group(1)`, the captured 24-character reference. -/
def mainTargetSearch : List Char → Option (List Char)
  | [] => none
  | c :: t =>
    match stageClip (c :: t) with
    | some r => some r
    | none => mainTargetSearch t

/-! ### add_share_extension.py -/

/-- `add_share_extension_target(project_file)`: read the file, generate
uuids `u 0 .. u 8` (target, build_phase, build_file, group, file_ref,
info_plist, storyboard, swift_file, icon), search the main-target pattern
(returning False with no write if absent), splice the target fragment into
the PBXNativeTarget section and the phases fragment into the
PBXSourcesBuildPhase section, write, and return True. -/
def add_share_extension_target (u : Nat → List Char) (content : List Char) : ScriptResult :=
  match mainTargetSearch content with
  | none => ⟨false, none⟩
  | some mainUuid =>
    let c1 := spliceSection ("PBXNativeTarget")
      (shareExtensionTargetFrag mainUuid (u 0) (u 1) (u 2) (u 3) (u 4) (u 8)) content
    let c2 := spliceSection ("PBXSourcesBuildPhase")
      (shareExtensionPhasesFrag (u 2) (u 7) (u 3) (u 4) (u 6) (u 8)) c1
    ⟨true, some c2⟩

/-! ### fix_build_config.py -/

/-- `fix_build_config()`: splice the configuration-list fragment into the
XCConfigurationList section and the debug and release configurations into
the XCBuildConfiguration section (line 112 joins them with a newline), then
unconditionally write and return True. -/
def fix_build_config (content : List Char) : ScriptResult :=
  let c1 := spliceSection ("XCConfigurationList") buildConfigListFrag content
  let c2 := spliceSection ("XCBuildConfiguration")
    (shareExtensionDebugConfigFrag ++ '\n' :: shareExtensionReleaseConfigFrag) c1
  ⟨true, some c2⟩

/-! ### fix_share_extension.py -/

/-- Python's `\s` character class (ASCII part; the counterexample inputs
below are ASCII). -/
def isPySpace (c : Char) : Bool :=
  decide (c = ' ' ∨ c = '\t' ∨ c = '\n' ∨ c = '\r' ∨ c = '\x0b' ∨ c = '\x0c')

/-- Literal head `016547732E62440700C46AD8 /* Clipboard */ = {` of
fix_share_extension.py's main-target pattern (line 39). -/
def litFixShareHead : List Char :=
  ("016547732E62440700C46AD8 /* Clipboard */ = \x7b").toList

/-- Literal `};` closing the braced block in the same pattern. -/
def litCloseBrace : List Char := ("\x7d;").toList

/-- Literal second group `016547872E62440800C46AD8 /* ClipboardTests */` of
the same pattern. -/
def litTestsRef : List Char :=
  ("016547872E62440800C46AD8 /* ClipboardTests */").toList

/-- Consuming a literal: `some` of the rest of the text if `p` is a prefix
of `s`, else `none`. -/
def splitPrefix (p s : List Char) : Option (List Char) :=
  if p.isPrefixOf s then some (s.drop p.length) else none

/-- One attempt of fix_share_extension.py's main-target pattern
`(0165...AD8 /\* Clipboard \*/ = \{[^}]*\};\s*)(0165...AD8 /\* ClipboardTests \*/)`
at the head of `s`, returning `group(1)`.  `[^}]*` greedy stops exactly at
the first `}` (shorter runs leave a non-`}` where `\}` must match), and
`\s*` greedy stops at the first non-space, which must start the second
literal (it starts with `0`, not a space), so the match is deterministic. -/
def fixShareStage (s : List Char) : Option (List Char) :=
  match splitPrefix litFixShareHead s with
  | none => none
  | some t1 =>
    let r := t1.takeWhile (fun c => c ≠ '\x7d')
    match splitPrefix litCloseBrace (t1.drop r.length) with
    | none => none
    | some t3 =>
      let w := t3.takeWhile isPySpace
      match splitPrefix litTestsRef (t3.drop w.length) with
      | none => none
      | some _ => some (litFixShareHead ++ r ++ litCloseBrace ++ w)

/-- `re.search` of fix_share_extension.py's main-target pattern: leftmost
match, returning `group(1)`. -/
def searchFixShare : List Char → Option (List Char)
  | [] => none
  | c :: t =>
    match fixShareStage (c :: t) with
    | some g => some g
    | none => searchFixShare t

/-- Literal `targets = (` of the targets-list pattern (line 71). -/
def litTargetsOpen : List Char := ("targets = (").toList

/-- Literal `016547732E62440700C46AD8 /* Clipboard */,` of the targets-list
pattern. -/
def litTargetsClip : List Char := ("016547732E62440700C46AD8 /* Clipboard */,").toList

/-- One attempt of the targets-list pattern
`(targets = \(\s*0165...AD8 /\* Clipboard \*/,)` at the head of `s`;
deterministic because the literal after `\s*` starts with `0`. -/
def targetsStage (s : List Char) : Option (List Char) :=
  match splitPrefix litTargetsOpen s with
  | none => none
  | some t1 =>
    let w := t1.takeWhile isPySpace
    match splitPrefix litTargetsClip (t1.drop w.length) with
    | none => none
    | some _ => some (litTargetsOpen ++ w ++ litTargetsClip)

/-- `re.search` of the targets-list pattern: leftmost match, `group(1)`. -/
def searchTargetsList : List Char → Option (List Char)
  | [] => none
  | c :: t =>
    match targetsStage (c :: t) with
    | some g => some g
    | none => searchTargetsList t

/-- The literal `ShareExtension`. -/
def shareExtensionLit : List Char := ("ShareExtension").toList

/-- `fix_share_extension()`: if `"ShareExtension" in content`, print and
return True without writing; otherwise search the main-target pattern
(returning False with no write if absent), insert the target fragment after
`group(1)` via `content.replace(g1, g1 + fragment)`, add the target to the
targets list if that pattern matches, write, and return True.  Uuids
`u 0 .. u 8` are target, build_config, sources_phase, frameworks_phase,
resources_phase, product, swift_file, storyboard_file, icon_file. -/
def fix_share_extension (u : Nat → List Char) (content : List Char) : ScriptResult :=
  if containsSub shareExtensionLit content then ⟨true, none⟩
  else
    match searchFixShare content with
    | none => ⟨false, none⟩
    | some g1 =>
      let frag := fixShareTargetFrag (u 0) (u 1) (u 2) (u 3) (u 4) (u 5)
      let c1 := replaceAll g1 (g1 ++ frag) content
      let c2 :=
        match searchTargetsList c1 with
        | none => c1
        | some g =>
          replaceAll g (g ++ '\n' :: '\t' :: '\t' :: '\t' ::
            ((u 0) ++ (" /* ShareExtension */,").toList)) c1
      ⟨true, some c2⟩

/-! ### complete_share_extension.py -/

/-- `complete_share_extension()`: splice the phases, file-reference and
build-configuration fragments into their sections, then unconditionally
write and return True.  Uuids `u 0 .. u 8` are build_config, sources_phase,
frameworks_phase, resources_phase, product, swift_file, storyboard_file,
icon_file, info_plist; `u 9` is the inline `generate_uuid()` of line 124. -/
def complete_share_extension (u : Nat → List Char) (content : List Char) : ScriptResult :=
  let c1 := spliceSection ("PBXSourcesBuildPhase")
    (completePhasesFrag (u 1) (u 5) (u 2) (u 3) (u 6) (u 7)) content
  let c2 := spliceSection ("PBXFileReference")
    (completeFileRefsFrag (u 4) (u 5) (u 6) (u 7) (u 8)) c1
  let c3 := spliceSection ("XCBuildConfiguration")
    (completeConfigFrag (u 0) (u 9)) c2
  ⟨true, some c3⟩

/-! ### File paths

Each script hard-codes its input and output paths (`add_share_extension.py`
takes the path as a parameter and uses it for both). -/

/-- The project file path used by all scripts. -/
def projectFilePath : String := "Clipboard.xcodeproj/project.pbxproj"

/-- Path read by fix_build_config.py. -/
def fix_build_config_readPath : String := projectFilePath

/-- Path written by fix_build_config.py. -/
def fix_build_config_writePath : String := projectFilePath

/-- Path read by fix_share_extension.py. -/
def fix_share_extension_readPath : String := projectFilePath

/-- Path written by fix_share_extension.py. -/
def fix_share_extension_writePath : String := projectFilePath

/-- Path read by complete_share_extension.py. -/
def complete_share_extension_readPath : String := projectFilePath

/-- Path written by complete_share_extension.py. -/
def complete_share_extension_writePath : String := projectFilePath

/-- Path read by `add_share_extension_target(project_file)`. -/
def add_share_extension_target_readPath (p : String) : String := p

/-- Path written by `add_share_extension_target(project_file)`. -/
def add_share_extension_target_writePath (p : String) : String := p

/-- Path read by create_working_project.py (line 19: the `.backup` copy). -/
def create_working_project_readPath : String := projectFilePath ++ ".backup"

/-- Path written by create_working_project.py (line 195). -/
def create_working_project_writePath : String := projectFilePath


/-! ### Occurrence and replacement lemmas -/

/-- A decomposition of `s` around `pat` is an occurrence at the length of
the left part. -/
theorem occursAt_of_decomp {pat x y s : List Char} (h : s = x ++ pat ++ y) :
    occursAt pat s x.length := by
  subst h
  unfold occursAt
  rw [List.append_assoc, List.drop_left]
  exact List.prefix_append pat y

/-- An occurrence of a nonempty `pat` at `i` yields a decomposition whose
left part has length `i`. -/
theorem decomp_of_occursAt {pat s : List Char} {i : Nat} (hne : pat ≠ [])
    (h : occursAt pat s i) : ∃ x y, s = x ++ pat ++ y ∧ x.length = i := by
  rcases h with ⟨y, hy⟩
  have hdrop : s.drop i ≠ [] := by
    rw [← hy]
    intro hc
    rcases List.append_eq_nil.mp hc with ⟨h1, _⟩
    exact hne h1
  have hi : i < s.length := List.length_lt_of_drop_ne_nil hdrop
  refine ⟨s.take i, y, ?_, List.length_take_of_le (Nat.le_of_lt hi)⟩
  conv_lhs => rw [← List.take_append_drop i s]
  rw [← hy, List.append_assoc]

/-- Two decompositions around `pat` with left parts of equal length are
equal. -/
theorem decomp_unique {pat x₁ y₁ x₂ y₂ : List Char}
    (h : x₁ ++ pat ++ y₁ = x₂ ++ pat ++ y₂) (hl : x₁.length = x₂.length) :
    x₁ = x₂ ∧ y₁ = y₂ := by
  rw [List.append_assoc, List.append_assoc] at h
  rcases List.append_inj h hl with ⟨hx, hrest⟩
  exact ⟨hx, List.append_cancel_left hrest⟩

/-- Occurrences shift across `cons`. -/
theorem occursAt_cons {pat : List Char} {c : Char} {t : List Char} {i : Nat} :
    occursAt pat (c :: t) (i + 1) ↔ occursAt pat t i := by
  unfold occursAt
  rw [List.drop_succ_cons]

/-- An occurrence inside the right part of an append shifts. -/
theorem occursAt_append_right {pat x y : List Char} {j : Nat}
    (h : occursAt pat y j) : occursAt pat (x ++ y) (x.length + j) := by
  unfold occursAt at h ⊢
  rw [← List.drop_drop, List.drop_left]
  exact h

/-- An occurrence of `p` transfers to an occurrence of any middle part of
`p`. -/
theorem occursAt_trans {p u q v s : List Char} {t : Nat}
    (h : occursAt p s t) (hp : p = u ++ q ++ v) : occursAt q s (t + u.length) := by
  rcases h with ⟨y, hy⟩
  unfold occursAt
  have : s.drop (t + u.length) = (s.drop t).drop u.length := by
    rw [List.drop_drop, Nat.add_comm]
  rw [this, ← hy, hp, List.append_assoc, List.append_assoc, List.drop_left]
  exact ⟨v ++ y, by simp⟩

/-- `containsSub` decides the existence of an occurrence. -/
theorem containsSub_iff {pat s : List Char} :
    containsSub pat s = true ↔ ∃ x y, s = x ++ pat ++ y := by
  unfold containsSub
  rw [List.any_eq_true]
  constructor
  · rintro ⟨i, _, hp⟩
    rw [List.isPrefixOf_iff_prefix] at hp
    rcases hp with ⟨y, hy⟩
    refine ⟨s.take i, y, ?_⟩
    conv_lhs => rw [← List.take_append_drop i s, ← hy]
    rw [List.append_assoc]
  · rintro ⟨x, y, hxy⟩
    refine ⟨x.length, List.mem_range.mpr ?_, ?_⟩
    · subst hxy; simp; omega
    · rw [List.isPrefixOf_iff_prefix]
      subst hxy
      rw [List.append_assoc, List.drop_left]
      exact List.prefix_append pat y

/-- A `countOcc` of one yields a unique occurrence. -/
theorem unique_occ_of_countOcc_one {pat s : List Char} (hne : pat ≠ [])
    (h : countOcc pat s = 1) :
    ∃ i, occursAt pat s i ∧ ∀ j, occursAt pat s j → j = i := by
  unfold countOcc at h
  rcases List.length_eq_one.mp h with ⟨a, ha⟩
  have hmem : ∀ j, occursAt pat s j → j ∈ (List.range (s.length + 1)).filter
      (fun i => pat.isPrefixOf (s.drop i)) := by
    intro j hj
    have hj' := hj
    rcases hj with ⟨y, hy⟩
    have hdrop : s.drop j ≠ [] := by
      rw [← hy]
      intro hc
      rcases List.append_eq_nil.mp hc with ⟨h1, _⟩
      exact hne h1
    have hjlt : j < s.length := List.length_lt_of_drop_ne_nil hdrop
    rw [List.mem_filter]
    exact ⟨List.mem_range.mpr (by omega),
      by rw [List.isPrefixOf_iff_prefix]; exact hj'⟩
  have hocc : occursAt pat s a := by
    have : a ∈ (List.range (s.length + 1)).filter
        (fun i => pat.isPrefixOf (s.drop i)) := by
      rw [ha]; exact List.mem_singleton.mpr rfl
    rw [List.mem_filter] at this
    have := this.2
    rwa [List.isPrefixOf_iff_prefix] at this
  refine ⟨a, hocc, fun j hj => ?_⟩
  have := hmem j hj
  rw [ha] at this
  exact List.mem_singleton.mp this

/-- Step equation of `replaceAll` when the pattern matches at the head. -/
theorem replaceAll_cons_pos {pat new : List Char} {c : Char} {t : List Char}
    (hne : pat ≠ []) (hp : pat <+: (c :: t)) :
    replaceAll pat new (c :: t) = new ++ replaceAll pat new ((c :: t).drop pat.length) := by
  show replaceAllAux pat new (t.length + 1) (c :: t) = _
  rw [show replaceAllAux pat new (t.length + 1) (c :: t) =
      (if pat ≠ [] ∧ pat.isPrefixOf (c :: t) then
        new ++ replaceAllAux pat new t.length ((c :: t).drop pat.length)
      else c :: replaceAllAux pat new t.length t) from rfl]
  rw [if_pos ⟨hne, List.isPrefixOf_iff_prefix.mpr hp⟩]
  have hplen : 0 < pat.length := List.length_pos.mpr hne
  have hle : ((c :: t).drop pat.length).length ≤ t.length := by
    simp only [List.length_drop, List.length_cons]
    omega
  rw [replaceAll]
  exact congrArg (fun l => new ++ l)
    (replaceAllAux_congr t.length (((c :: t).drop pat.length).length) _ hle (le_refl _))

/-- Step equation of `replaceAll` when the pattern does not match at the
head. -/
theorem replaceAll_cons_neg {pat new : List Char} {c : Char} {t : List Char}
    (hp : ¬ (pat ≠ [] ∧ pat <+: (c :: t))) :
    replaceAll pat new (c :: t) = c :: replaceAll pat new t := by
  show replaceAllAux pat new (t.length + 1) (c :: t) = _
  rw [show replaceAllAux pat new (t.length + 1) (c :: t) =
      (if pat ≠ [] ∧ pat.isPrefixOf (c :: t) then
        new ++ replaceAllAux pat new t.length ((c :: t).drop pat.length)
      else c :: replaceAllAux pat new t.length t) from rfl]
  rw [if_neg (fun hc => hp ⟨hc.1, List.isPrefixOf_iff_prefix.mp hc.2⟩)]
  rfl

/-- Value of `replaceAll` on the empty string. -/
theorem replaceAll_nil {pat new : List Char} : replaceAll pat new [] = [] :=
  rfl

/-- If `pat` never occurs in `s`, `replaceAll` leaves `s` unchanged. -/
theorem replaceAll_no_occ {pat new s : List Char}
    (h : ∀ i, ¬ occursAt pat s i) : replaceAll pat new s = s := by
  induction s with
  | nil => exact replaceAll_nil
  | cons c t ih =>
    have hnp : ¬ (pat ≠ [] ∧ pat <+: (c :: t)) := by
      rintro ⟨_, hp⟩
      exact h 0 hp
    rw [replaceAll_cons_neg hnp]
    rw [ih (fun i hi => h (i + 1) (occursAt_cons.mpr hi))]

/-- Step equation of `replaceAll` at a head occurrence. -/
theorem replaceAll_head {pat new y : List Char} (hne : pat ≠ []) :
    replaceAll pat new (pat ++ y) = new ++ replaceAll pat new y := by
  cases hp : pat ++ y with
  | nil =>
    rcases List.append_eq_nil.mp hp with ⟨h1, _⟩
    exact absurd h1 hne
  | cons c t =>
    have hpre : pat <+: (c :: t) := by
      rw [← hp]
      exact List.prefix_append pat y
    rw [replaceAll_cons_pos hne hpre, ← hp, List.drop_left]

/-- Helper for `replaceAll_self`, by induction on a length bound. -/
theorem replaceAll_self_aux {pat : List Char} :
    ∀ (n : Nat) (s : List Char), s.length ≤ n → replaceAll pat pat s = s := by
  intro n
  induction n with
  | zero =>
    intro s hs
    have hnil : s = [] := List.eq_nil_of_length_eq_zero (Nat.le_zero.mp hs)
    subst hnil
    exact replaceAll_nil
  | succ n ih =>
    intro s hs
    cases s with
    | nil => exact replaceAll_nil
    | cons c t =>
      by_cases hp : pat ≠ [] ∧ pat <+: (c :: t)
      · rcases hp.2 with ⟨rest, hrest⟩
        rw [← hrest, replaceAll_head hp.1]
        have hplen : 0 < pat.length := List.length_pos.mpr hp.1
        have hlen : pat.length + rest.length = t.length + 1 := by
          rw [← List.length_append, hrest]
          simp
        simp only [List.length_cons] at hs
        rw [ih rest (by omega)]
      · rw [replaceAll_cons_neg hp]
        simp only [List.length_cons] at hs
        rw [ih t (by omega)]

/-- Replacing a pattern by itself changes nothing. -/
theorem replaceAll_self {pat s : List Char} : replaceAll pat pat s = s :=
  replaceAll_self_aux s.length s (Nat.le_refl _)

/-- If `pat` occurs exactly at index `x.length` of `x ++ pat ++ y`, then
`replaceAll` rewrites exactly that occurrence. -/
theorem replaceAll_unique {pat new x y : List Char} (hne : pat ≠ [])
    (huniq : ∀ j, occursAt pat (x ++ pat ++ y) j → j = x.length) :
    replaceAll pat new (x ++ pat ++ y) = x ++ new ++ y := by
  induction x with
  | nil =>
    simp only [List.nil_append]
    rw [replaceAll_head hne]
    have hnoy : ∀ i, ¬ occursAt pat y i := by
      intro i hi
      have h0 := huniq (pat.length + i) (by
        simpa using occursAt_append_right (x := pat) hi)
      simp only [List.length_nil] at h0
      have hplen : 0 < pat.length := List.length_pos.mpr hne
      omega
    rw [replaceAll_no_occ hnoy]
  | cons c x' ih =>
    have hshape : (c :: x') ++ pat ++ y = c :: (x' ++ pat ++ y) := by simp
    have hnp : ¬ (pat ≠ [] ∧ pat <+: (c :: (x' ++ pat ++ y))) := by
      rintro ⟨_, hp⟩
      have h0 := huniq 0 (by rw [hshape]; exact hp)
      simp at h0
    rw [hshape, replaceAll_cons_neg hnp]
    rw [ih (fun j hj => by
      have h0 := huniq (j + 1) (by rw [hshape]; exact occursAt_cons.mpr hj)
      simpa using h0)]
    simp

/-- If `pat` (nonempty) occurs in `s`, the replacement appears in the
result of `replaceAll`. -/
theorem replaceAll_contains {pat : List Char} (new : List Char) {s : List Char}
    (hne : pat ≠ []) (h : ∃ i, occursAt pat s i) :
    ∃ x y, replaceAll pat new s = x ++ new ++ y := by
  induction s with
  | nil =>
    rcases h with ⟨i, y, hy⟩
    rw [List.drop_nil] at hy
    rcases List.append_eq_nil.mp hy with ⟨h1, _⟩
    exact absurd h1 hne
  | cons c t ih =>
    by_cases hp : pat <+: (c :: t)
    · rw [replaceAll_cons_pos hne hp]
      exact ⟨[], replaceAll pat new ((c :: t).drop pat.length), by simp⟩
    · rw [replaceAll_cons_neg (by rintro ⟨_, hc⟩; exact hp hc)]
      rcases h with ⟨i, hi⟩
      cases i with
      | zero => exact absurd hi hp
      | succ j =>
        rcases ih ⟨j, occursAt_cons.mp hi⟩ with ⟨x, y, hxy⟩
        exact ⟨c :: x, y, by rw [hxy]; simp⟩

/-! ### Soundness of the matchers -/

/-- A verified prefix yields the drop decomposition. -/
theorem eq_append_drop_of_isPrefixOf {p s : List Char} (h : p.isPrefixOf s) :
    s = p ++ s.drop p.length := by
  rcases List.isPrefixOf_iff_prefix.mp h with ⟨y, hy⟩
  rw [← hy, List.drop_left]

/-- `dropWhile` drops exactly the length of `takeWhile`. -/
theorem dropWhile_eq_drop_len (q : Char → Bool) :
    ∀ (l : List Char), l.dropWhile q = l.drop (l.takeWhile q).length
  | [] => rfl
  | c :: t => by
    by_cases hq : q c
    · simp [List.takeWhile_cons, List.dropWhile_cons, hq, dropWhile_eq_drop_len q t]
    · simp [List.takeWhile_cons, List.dropWhile_cons, hq]

/-- Splitting a list at the end of its `takeWhile` run. -/
theorem takeWhile_drop_split (q : Char → Bool) (l : List Char) :
    l = l.takeWhile q ++ l.drop (l.takeWhile q).length := by
  conv_lhs => rw [← List.takeWhile_append_dropWhile (p := q) (l := l)]
  rw [dropWhile_eq_drop_len]

/-- The components returned by `searchSectionAux` concatenate to the
input. -/
theorem searchSectionAux_sound {name : String} {s : List Char} :
    ∀ {pre a b c : List Char},
      searchSectionAux name pre s = some (a, b, c) → a ++ b ++ c = pre ++ s := by
  induction s with
  | nil =>
    intro pre a b c h
    rw [searchSectionAux] at h
    split at h
    · rw [Option.some.injEq, Prod.mk.injEq, Prod.mk.injEq] at h
      obtain ⟨rfl, rfl, rfl⟩ := h
      simp
    · simp at h
  | cons c0 t ih =>
    intro pre a b c h
    rw [searchSectionAux] at h
    split at h
    · rw [Option.some.injEq, Prod.mk.injEq, Prod.mk.injEq] at h
      obtain ⟨rfl, rfl, rfl⟩ := h
      rw [List.append_assoc, List.take_append_drop]
    · have h3 := ih h
      rw [h3]
      simp


/-- Soundness of `splitPrefix`. -/
theorem splitPrefix_sound {p s t : List Char} (h : splitPrefix p s = some t) :
    s = p ++ t := by
  unfold splitPrefix at h
  split at h
  · rename_i hp
    rw [Option.some.injEq] at h
    subst h
    exact eq_append_drop_of_isPrefixOf hp
  · simp at h

/-- A successful `fixShareStage` match is a prefix of the text. -/
theorem fixShareStage_sound {s g : List Char} (h : fixShareStage s = some g) :
    ∃ y, s = g ++ y := by
  simp only [fixShareStage] at h
  split at h
  · simp at h
  · rename_i t1 h1
    split at h
    · simp at h
    · rename_i t3 h3
      split at h
      · simp at h
      · rename_i t5 h5
        rw [Option.some.injEq] at h
        subst h
        have e1 := splitPrefix_sound h1
        have e3 := splitPrefix_sound h3
        have e5 := splitPrefix_sound h5
        refine ⟨t3.drop (t3.takeWhile isPySpace).length, ?_⟩
        rw [e1]
        conv_lhs => rw [takeWhile_drop_split (fun c => c ≠ '\x7d') t1]
        rw [e3]
        conv_lhs => rw [takeWhile_drop_split isPySpace t3]
        simp [List.append_assoc]

/-- A successful `searchFixShare` is an occurrence of the matched text. -/
theorem searchFixShare_sound {s g : List Char} (h : searchFixShare s = some g) :
    ∃ x y, s = x ++ g ++ y := by
  induction s with
  | nil => simp [searchFixShare] at h
  | cons c t ih =>
    rw [searchFixShare] at h
    split at h
    · rename_i hst
      rw [Option.some.injEq] at h
      subst h
      rcases fixShareStage_sound hst with ⟨y, hy⟩
      exact ⟨[], y, by simpa using hy⟩
    · rcases ih h with ⟨x, y, hxy⟩
      exact ⟨c :: x, y, by simp [hxy]⟩

/-- A successful `targetsStage` match is a prefix of the text. -/
theorem targetsStage_sound {s g : List Char} (h : targetsStage s = some g) :
    ∃ y, s = g ++ y := by
  simp only [targetsStage] at h
  split at h
  · simp at h
  · rename_i t1 h1
    split at h
    · simp at h
    · rename_i t2 h2
      rw [Option.some.injEq] at h
      subst h
      have e1 := splitPrefix_sound h1
      have e2 := splitPrefix_sound h2
      refine ⟨t2, ?_⟩
      rw [e1]
      conv_lhs => rw [takeWhile_drop_split isPySpace t1]
      rw [e2]
      simp [List.append_assoc]

/-- A successful `searchTargetsList` is an occurrence of the matched
text. -/
theorem searchTargetsList_sound {s g : List Char} (h : searchTargetsList s = some g) :
    ∃ x y, s = x ++ g ++ y := by
  induction s with
  | nil => simp [searchTargetsList] at h
  | cons c t ih =>
    rw [searchTargetsList] at h
    split at h
    · rename_i hst
      rw [Option.some.injEq] at h
      subst h
      rcases targetsStage_sound hst with ⟨y, hy⟩
      exact ⟨[], y, by simpa using hy⟩
    · rcases ih h with ⟨x, y, hxy⟩
      exact ⟨c :: x, y, by simp [hxy]⟩

/-! ### The unescaped section patterns never match literal markers -/

/-- A successful begin-pattern match exhibits ` Begin <name> section`
followed by spaces and a `/` in the text. -/
theorem beginMatchLen_decomp {name : String} {s : List Char} {L : Nat}
    (h : beginMatchLen name s = some L) :
    ∃ x m y, s = x ++ beginCore name ++ List.replicate m ' ' ++ '/' :: y := by
  simp only [beginMatchLen] at h
  split at h
  · rename_i hpre
    split at h
    · rename_i ytail heq
      refine ⟨s.take ((s.takeWhile (fun c => c = '/')).length),
        (((s.drop ((s.takeWhile (fun c => c = '/')).length)).drop
          ((beginCore name).length)).takeWhile (fun c => c = ' ')).length, ytail, ?_⟩
      have hw : ((s.drop ((s.takeWhile (fun c => c = '/')).length)).drop
          ((beginCore name).length)).takeWhile (fun c => c = ' ') =
          List.replicate (((s.drop ((s.takeWhile (fun c => c = '/')).length)).drop
            ((beginCore name).length)).takeWhile (fun c => c = ' ')).length ' ' := by
        rw [List.eq_replicate_length]
        intro b hb
        have := List.mem_takeWhile_imp hb
        simpa using this
      conv_lhs => rw [← List.take_append_drop ((s.takeWhile (fun c => c = '/')).length) s]
      rw [eq_append_drop_of_isPrefixOf hpre]
      conv_lhs => rw [takeWhile_drop_split (fun c => c = ' ')
        ((s.drop ((s.takeWhile (fun c => c = '/')).length)).drop ((beginCore name).length))]
      rw [heq, hw]
      simp [List.append_assoc]
    · exact absurd h (by simp)
  · exact absurd h (by simp)

/-- A successful end-pattern match exhibits ` End <name> section` followed
by spaces and a `/` in the text. -/
theorem endMatchLen_decomp {name : String} {s : List Char} {L : Nat}
    (h : endMatchLen name s = some L) :
    ∃ x m y, s = x ++ endCore name ++ List.replicate m ' ' ++ '/' :: y := by
  simp only [endMatchLen] at h
  split at h
  · rename_i hpre
    split at h
    · rename_i ytail heq
      refine ⟨s.take ((s.takeWhile (fun c => c = '/')).length),
        (((s.drop ((s.takeWhile (fun c => c = '/')).length)).drop
          ((endCore name).length)).takeWhile (fun c => c = ' ')).length, ytail, ?_⟩
      have hw : ((s.drop ((s.takeWhile (fun c => c = '/')).length)).drop
          ((endCore name).length)).takeWhile (fun c => c = ' ') =
          List.replicate (((s.drop ((s.takeWhile (fun c => c = '/')).length)).drop
            ((endCore name).length)).takeWhile (fun c => c = ' ')).length ' ' := by
        rw [List.eq_replicate_length]
        intro b hb
        have := List.mem_takeWhile_imp hb
        simpa using this
      conv_lhs => rw [← List.take_append_drop ((s.takeWhile (fun c => c = '/')).length) s]
      rw [eq_append_drop_of_isPrefixOf hpre]
      conv_lhs => rw [takeWhile_drop_split (fun c => c = ' ')
        ((s.drop ((s.takeWhile (fun c => c = '/')).length)).drop ((endCore name).length))]
      rw [heq, hw]
      simp [List.append_assoc]
    · exact absurd h (by simp)
  · exact absurd h (by simp)

/-- If the begin pattern matches nowhere in `s`, the section search fails. -/
theorem searchSectionAux_none_of_noBegin {name : String} {s : List Char}
    (h : ∀ i, beginMatchLen name (s.drop i) = none) :
    ∀ pre, searchSectionAux name pre s = none := by
  induction s with
  | nil =>
    intro pre
    have h0 := h 0
    rw [List.drop_zero] at h0
    rw [searchSectionAux]
    simp [sectionMatchLen, h0]
  | cons c t ih =>
    intro pre
    have h0 := h 0
    rw [List.drop_zero] at h0
    rw [searchSectionAux]
    simp only [sectionMatchLen, h0]
    exact ih (fun i => by have hi := h (i + 1); rwa [List.drop_succ_cons] at hi) _

/-- If the end pattern matches nowhere in `s`, `subEndMarker` leaves `s`
unchanged. -/
theorem subEndMarker_id_of_noEnd {name : String} {frag s : List Char}
    (h : ∀ i, endMatchLen name (s.drop i) = none) :
    subEndMarker name frag s = s := by
  induction s with
  | nil =>
    rw [subEndMarker]
    have h0 := h 0
    rw [List.drop_zero] at h0
    split
    · rename_i L hL
      rw [h0] at hL
      exact absurd hL (by simp)
    · rfl
  | cons c t ih =>
    rw [subEndMarker]
    have h0 := h 0
    rw [List.drop_zero] at h0
    split
    · rename_i L hL
      rw [h0] at hL
      exact absurd hL (by simp)
    · show c :: subEndMarker name frag t = c :: t
      rw [ih (fun i => by have hi := h (i + 1); rwa [List.drop_succ_cons] at hi)]

/-! ### Frame property of the section splice -/

/-- The end marker is a nonempty string. -/
theorem endMarker_ne_nil (name : String) : endMarker name ≠ [] := by
  unfold endMarker
  intro h
  have h2 : ("/* End " ++ name ++ " section */").data = [] := h
  rw [String.data_append, String.data_append] at h2
  rcases List.append_eq_nil.mp h2 with ⟨h3, _⟩
  rcases List.append_eq_nil.mp h3 with ⟨h4, _⟩
  exact absurd h4 (by decide)

/-- Unfolding `spliceSection` when the pattern does not match. -/
theorem spliceSection_none {name : String} {frag content : List Char}
    (h : searchSectionAux name [] content = none) :
    spliceSection name frag content = content := by
  unfold spliceSection
  rw [h]

/-- Unfolding `spliceSection` on a match. -/
theorem spliceSection_some {name : String} (frag : List Char)
    {content p sec post : List Char}
    (h : searchSectionAux name [] content = some (p, sec, post)) :
    spliceSection name frag content =
      replaceAll sec (replaceAll (endMarker name) (frag ++ '\n' :: endMarker name) sec)
        content := by
  unfold spliceSection
  rw [h]

/-- Core frame lemma: when the literal end marker occurs exactly once, the
splice either leaves the content unchanged or inserts the fragment and a
newline immediately before the end marker; everything before and after the
end marker is preserved. -/
theorem spliceSection_frame_core {name : String} {frag content A C : List Char}
    (hcount : countOcc (endMarker name) content = 1)
    (hAC : content = A ++ endMarker name ++ C) :
    ∃ ins, spliceSection name frag content = A ++ ins ++ endMarker name ++ C := by
  have hne := endMarker_ne_nil name
  obtain ⟨i0, hi0, huniq⟩ := unique_occ_of_countOcc_one hne hcount
  have hA : A.length = i0 := huniq _ (occursAt_of_decomp hAC)
  cases hsearch : searchSectionAux name [] content with
  | none =>
    refine ⟨[], ?_⟩
    rw [spliceSection_none hsearch, hAC]
    simp
  | some res =>
    obtain ⟨p, sec, post⟩ := res
    have hsound := searchSectionAux_sound hsearch
    simp only [List.nil_append] at hsound
    by_cases hocc : ∃ j, occursAt (endMarker name) sec j
    · obtain ⟨j, hj⟩ := hocc
      obtain ⟨u, v, hsec, hul⟩ := decomp_of_occursAt hne hj
      have hcontent2 : content = (p ++ u) ++ endMarker name ++ (v ++ post) := by
        rw [← hsound, hsec]
        simp [List.append_assoc]
      have hpu : p.length + u.length = i0 := by
        have := huniq _ (occursAt_of_decomp hcontent2)
        simpa using this
      have hsecuniq : ∀ j', occursAt (endMarker name) sec j' → j' = u.length := by
        intro j' hj'
        obtain ⟨x', y', hsec', hxl⟩ := decomp_of_occursAt hne hj'
        have hcontent3 : content = (p ++ x') ++ endMarker name ++ (y' ++ post) := by
          rw [← hsound, hsec']
          simp [List.append_assoc]
        have := huniq _ (occursAt_of_decomp hcontent3)
        simp at this
        omega
      have hinner : replaceAll (endMarker name)
          (frag ++ '\n' :: endMarker name) sec =
          u ++ (frag ++ '\n' :: endMarker name) ++ v := by
        rw [hsec]
        exact replaceAll_unique hne (fun j' hj' => by
          rw [← hsec] at hj'
          exact hsecuniq j' hj')
      have hsecne : sec ≠ [] := by
        rw [hsec]
        intro hc
        rcases List.append_eq_nil.mp hc with ⟨hc1, _⟩
        rcases List.append_eq_nil.mp hc1 with ⟨_, hc2⟩
        exact hne hc2
      have hsecoccuniq : ∀ t', occursAt sec content t' → t' = p.length := by
        intro t' ht'
        have hE : occursAt (endMarker name) content (t' + u.length) :=
          occursAt_trans ht' hsec
        have := huniq _ hE
        omega
      have houter : replaceAll sec
          (u ++ (frag ++ '\n' :: endMarker name) ++ v) content =
          p ++ (u ++ (frag ++ '\n' :: endMarker name) ++ v) ++ post := by
        conv_lhs => rw [← hsound]
        exact replaceAll_unique hsecne (fun t' ht' => by
          rw [hsound] at ht'
          exact hsecoccuniq t' ht')
      have hfinal := spliceSection_some frag hsearch
      rw [hinner] at hfinal
      rw [houter] at hfinal
      have hAeq : A = p ++ u ∧ C = v ++ post := by
        have h2 : A ++ endMarker name ++ C = (p ++ u) ++ endMarker name ++ (v ++ post) := by
          rw [← hAC, ← hcontent2]
        exact decomp_unique h2 (by simp; omega)
      refine ⟨frag ++ ['\n'], ?_⟩
      rw [hfinal, hAeq.1, hAeq.2]
      simp [List.append_assoc]
    · push_neg at hocc
      have hinner : replaceAll (endMarker name)
          (frag ++ '\n' :: endMarker name) sec = sec := replaceAll_no_occ hocc
      have hfinal := spliceSection_some frag hsearch
      rw [hinner, replaceAll_self] at hfinal
      refine ⟨[], ?_⟩
      rw [hfinal, hAC]
      simp

/-- The text ` */` (which follows the core of a literal marker comment)
can never satisfy the pattern tail `␣{0,}/`. -/
theorem space_star_slash_not_prefix (m : Nat) (y : List Char) :
    ¬ ((' ' :: '*' :: '/' :: []) <+: (List.replicate m ' ' ++ '/' :: y)) := by
  intro h
  rcases h with ⟨t, ht⟩
  match m with
  | 0 =>
    injection ht with h1 _
    exact absurd h1 (by decide)
  | 1 =>
    injection ht with h1 ht2
    injection ht2 with h2 _
    exact absurd h2 (by decide)
  | m + 2 =>
    injection ht with h1 ht2
    injection ht2 with h2 _
    exact absurd h2 (by decide)

/-- C6: for every input in which the section's literal marker pair occurs
exactly once, every byte of the input outside the matched section — the
part before the begin marker and the part after the end marker — is
unchanged in the output of the section splice, and the markers themselves
are preserved. -/
theorem spliceSection_frame (name : String) (frag content A M C : List Char)
    (hb : countOcc (beginMarker name) content = 1)
    (he : countOcc (endMarker name) content = 1)
    (hAC : content = A ++ beginMarker name ++ M ++ endMarker name ++ C) :
    ∃ M', spliceSection name frag content =
      A ++ beginMarker name ++ M' ++ endMarker name ++ C := by
  have h2 : content = (A ++ beginMarker name ++ M) ++ endMarker name ++ C := by
    rw [hAC]
  obtain ⟨ins, hout⟩ := spliceSection_frame_core he h2
  refine ⟨M ++ ins, ?_⟩
  rw [hout]
  simp [List.append_assoc]

/-- Concrete instance of `spliceSection_frame` (witness). -/
theorem spliceSection_frame_witness :
    countOcc (beginMarker ("PBXNativeTarget"))
      (("a/* Begin PBXNativeTarget section */m/* End PBXNativeTarget section */c").toList) = 1 ∧
    countOcc (endMarker ("PBXNativeTarget"))
      (("a/* Begin PBXNativeTarget section */m/* End PBXNativeTarget section */c").toList) = 1 ∧
    (("a/* Begin PBXNativeTarget section */m/* End PBXNativeTarget section */c").toList =
      ("a").toList ++ beginMarker ("PBXNativeTarget") ++ ("m").toList ++
        endMarker ("PBXNativeTarget") ++ ("c").toList) ∧
    (∃ M', spliceSection ("PBXNativeTarget") (("F").toList)
        (("a/* Begin PBXNativeTarget section */m/* End PBXNativeTarget section */c").toList) =
      ("a").toList ++ beginMarker ("PBXNativeTarget") ++ M' ++
        endMarker ("PBXNativeTarget") ++ ("c").toList) :=
  ⟨by decide, by decide, by decide,
    spliceSection_frame ("PBXNativeTarget") (("F").toList)
      (("a/* Begin PBXNativeTarget section */m/* End PBXNativeTarget section */c").toList)
      (("a").toList) (("m").toList) (("c").toList)
      (by decide) (by decide) (by decide)⟩

/-- C8: in any text whose section boundaries appear only as the literal
comment markers — so that every occurrence of the literally-matched core
` Begin <name> section` (resp. ` End <name> section`) is immediately
followed by ` */` — the scripts' unescaped section patterns never match:
the section splice of add_share_extension.py, fix_build_config.py and
complete_share_extension.py is silently skipped, and the `re.sub` splice of
create_working_project.py replaces nothing; the content is written back
unchanged. -/
theorem section_patterns_never_match_literal_markers :
    (∀ (name : String) (frag content : List Char),
      (∀ i ∈ List.range (content.length + 1),
        (beginCore name).isPrefixOf (content.drop i) →
        ((" */").toList).isPrefixOf ((content.drop i).drop (beginCore name).length)) →
      spliceSection name frag content = content) ∧
    (∀ (name : String) (frag content : List Char),
      (∀ i ∈ List.range (content.length + 1),
        (endCore name).isPrefixOf (content.drop i) →
        ((" */").toList).isPrefixOf ((content.drop i).drop (endCore name).length)) →
      subEndMarker name frag content = content) := by
  have hsss : (" */").toList = ' ' :: '*' :: '/' :: [] := by decide
  constructor
  · intro name frag content H
    apply spliceSection_none
    apply searchSectionAux_none_of_noBegin
    intro i
    cases hbm : beginMatchLen name (content.drop i) with
    | none => rfl
    | some L =>
      exfalso
      obtain ⟨x, m, y, hdec⟩ := beginMatchLen_decomp hbm
      obtain ⟨T, hT⟩ : ∃ T, content =
          T ++ (x ++ beginCore name ++ List.replicate m ' ' ++ '/' :: y) := by
        refine ⟨content.take i, ?_⟩
        conv_lhs => rw [← List.take_append_drop i content]
        rw [hdec]
      have hglobal : content = (T ++ x) ++ beginCore name ++
          (List.replicate m ' ' ++ '/' :: y) := by
        rw [hT]
        simp [List.append_assoc]
      have hjlen : ((T ++ x).length) + ((beginCore name).length + (m + (1 + y.length)))
          = content.length := by
        conv_rhs => rw [hglobal]
        simp [List.length_append]
        omega
      have hjin : (T ++ x).length ∈ List.range (content.length + 1) :=
        List.mem_range.mpr (by omega)
      have hoccj : occursAt (beginCore name) content ((T ++ x).length) :=
        occursAt_of_decomp hglobal
      have htail := H _ hjin (List.isPrefixOf_iff_prefix.mpr hoccj)
      have hd1 : content.drop ((T ++ x).length) =
          beginCore name ++ (List.replicate m ' ' ++ '/' :: y) := by
        conv_lhs => rw [show content = (T ++ x) ++
          (beginCore name ++ (List.replicate m ' ' ++ '/' :: y)) from by
            rw [hT]; simp [List.append_assoc]]
        rw [List.drop_left]
      rw [hd1, List.drop_left, hsss, List.isPrefixOf_iff_prefix] at htail
      exact space_star_slash_not_prefix m y htail
  · intro name frag content H
    apply subEndMarker_id_of_noEnd
    intro i
    cases hbm : endMatchLen name (content.drop i) with
    | none => rfl
    | some L =>
      exfalso
      obtain ⟨x, m, y, hdec⟩ := endMatchLen_decomp hbm
      obtain ⟨T, hT⟩ : ∃ T, content =
          T ++ (x ++ endCore name ++ List.replicate m ' ' ++ '/' :: y) := by
        refine ⟨content.take i, ?_⟩
        conv_lhs => rw [← List.take_append_drop i content]
        rw [hdec]
      have hglobal : content = (T ++ x) ++ endCore name ++
          (List.replicate m ' ' ++ '/' :: y) := by
        rw [hT]
        simp [List.append_assoc]
      have hjlen : ((T ++ x).length) + ((endCore name).length + (m + (1 + y.length)))
          = content.length := by
        conv_rhs => rw [hglobal]
        simp [List.length_append]
        omega
      have hjin : (T ++ x).length ∈ List.range (content.length + 1) :=
        List.mem_range.mpr (by omega)
      have hoccj : occursAt (endCore name) content ((T ++ x).length) :=
        occursAt_of_decomp hglobal
      have htail := H _ hjin (List.isPrefixOf_iff_prefix.mpr hoccj)
      have hd1 : content.drop ((T ++ x).length) =
          endCore name ++ (List.replicate m ' ' ++ '/' :: y) := by
        conv_lhs => rw [show content = (T ++ x) ++
          (endCore name ++ (List.replicate m ' ' ++ '/' :: y)) from by
            rw [hT]; simp [List.append_assoc]]
        rw [List.drop_left]
      rw [hd1, List.drop_left, hsss, List.isPrefixOf_iff_prefix] at htail
      exact space_star_slash_not_prefix m y htail

/-- Concrete instance of
`section_patterns_never_match_literal_markers` (witness). -/
theorem section_patterns_never_match_literal_markers_witness :
    (∀ i ∈ List.range
        ((("x/* Begin PBXNativeTarget section */y/* End PBXNativeTarget section */z").toList).length + 1),
      (beginCore ("PBXNativeTarget")).isPrefixOf
        ((("x/* Begin PBXNativeTarget section */y/* End PBXNativeTarget section */z").toList).drop i) →
      ((" */").toList).isPrefixOf
        (((("x/* Begin PBXNativeTarget section */y/* End PBXNativeTarget section */z").toList).drop i).drop
          (beginCore ("PBXNativeTarget")).length)) ∧
    spliceSection ("PBXNativeTarget") (("F").toList)
      (("x/* Begin PBXNativeTarget section */y/* End PBXNativeTarget section */z").toList) =
      ("x/* Begin PBXNativeTarget section */y/* End PBXNativeTarget section */z").toList ∧
    (∀ i ∈ List.range ((("/* End PBXSourcesBuildPhase section */").toList).length + 1),
      (endCore ("PBXSourcesBuildPhase")).isPrefixOf
        ((("/* End PBXSourcesBuildPhase section */").toList).drop i) →
      ((" */").toList).isPrefixOf
        (((("/* End PBXSourcesBuildPhase section */").toList).drop i).drop
          (endCore ("PBXSourcesBuildPhase")).length)) ∧
    subEndMarker ("PBXSourcesBuildPhase") (("G").toList)
      (("/* End PBXSourcesBuildPhase section */").toList) =
      ("/* End PBXSourcesBuildPhase section */").toList :=
  ⟨by decide,
    section_patterns_never_match_literal_markers.1 ("PBXNativeTarget") (("F").toList)
      (("x/* Begin PBXNativeTarget section */y/* End PBXNativeTarget section */z").toList)
      (by decide),
    by decide,
    section_patterns_never_match_literal_markers.2 ("PBXSourcesBuildPhase") (("G").toList)
      (("/* End PBXSourcesBuildPhase section */").toList) (by decide)⟩

/-- C9: `fix_build_config` and `complete_share_extension` return True and
write the project file back for every input, whether or not any of their
patterns matched; neither function has an execution path that returns
False. -/
theorem fix_build_config_complete_always_true_and_write :
    ∀ (u : Nat → List Char) (content : List Char),
      (fix_build_config content).returnValue = true ∧
      ((fix_build_config content).written).isSome = true ∧
      (complete_share_extension u content).returnValue = true ∧
      ((complete_share_extension u content).written).isSome = true :=
  fun _ _ => ⟨rfl, rfl, rfl, rfl⟩

/-- C10: `generate_uuid` applied to the textual form of a version-4 UUID —
five lowercase-hexadecimal groups of lengths 8, 4, 4, 4 and 12 joined by
dashes — returns a string of exactly 24 characters drawn from `0-9A-F`. -/
theorem generate_uuid_hex24 (g1 g2 g3 g4 g5 : List Char)
    (h1 : g1.length = 8) (h2 : g2.length = 4) (h3 : g3.length = 4)
    (h4 : g4.length = 4) (h5 : g5.length = 12)
    (hx1 : ∀ c ∈ g1, c ∈ lowerHexChars) (hx2 : ∀ c ∈ g2, c ∈ lowerHexChars)
    (hx3 : ∀ c ∈ g3, c ∈ lowerHexChars) (hx4 : ∀ c ∈ g4, c ∈ lowerHexChars)
    (hx5 : ∀ c ∈ g5, c ∈ lowerHexChars) :
    (generate_uuid (g1 ++ '-' :: (g2 ++ '-' :: (g3 ++ '-' :: (g4 ++ '-' :: g5))))).length = 24 ∧
    ∀ c ∈ generate_uuid (g1 ++ '-' :: (g2 ++ '-' :: (g3 ++ '-' :: (g4 ++ '-' :: g5)))),
      c ∈ upperHexChars := by
  have hupper : ∀ d ∈ lowerHexChars, d.toUpper ∈ upperHexChars := by decide
  have hkeep : ∀ (gi : List Char), (∀ c ∈ gi, c ∈ lowerHexChars) →
      gi.filter (fun c => decide (c ≠ '-')) = gi := by
    intro gi hgi
    rw [List.filter_eq_self]
    intro c hc
    exact (show ∀ d ∈ lowerHexChars, (decide (d ≠ '-')) = true from by decide) c (hgi c hc)
  have hdd : (decide ('-' ≠ '-')) = false := by decide
  have hfilter : (g1 ++ '-' :: (g2 ++ '-' :: (g3 ++ '-' :: (g4 ++ '-' :: g5)))).filter
      (fun c => decide (c ≠ '-')) = g1 ++ (g2 ++ (g3 ++ (g4 ++ g5))) := by
    simp only [List.filter_append, List.filter_cons, hdd]
    rw [hkeep g1 hx1, hkeep g2 hx2, hkeep g3 hx3, hkeep g4 hx4, hkeep g5 hx5]
    simp
  constructor
  · simp only [generate_uuid, hfilter]
    simp [List.length_take, List.length_map, List.length_append, h1, h2, h3, h4, h5]
  · intro c hc
    simp only [generate_uuid, hfilter] at hc
    have hc2 := List.take_subset 24 _ hc
    rw [List.mem_map] at hc2
    obtain ⟨d, hd, hdu⟩ := hc2
    rw [← hdu]
    rcases List.mem_append.mp hd with h | h
    · exact hupper d (hx1 d h)
    rcases List.mem_append.mp h with h | h
    · exact hupper d (hx2 d h)
    rcases List.mem_append.mp h with h | h
    · exact hupper d (hx3 d h)
    rcases List.mem_append.mp h with h | h
    · exact hupper d (hx4 d h)
    · exact hupper d (hx5 d h)

/-- Concrete instance of `generate_uuid_hex24` (witness). -/
theorem generate_uuid_hex24_witness :
    (("12345678").toList.length = 8 ∧ ("9abc").toList.length = 4 ∧
      ("4def").toList.length = 4 ∧ ("8a0b").toList.length = 4 ∧
      ("123456789abc").toList.length = 12 ∧
      (∀ c ∈ ("12345678").toList, c ∈ lowerHexChars) ∧
      (∀ c ∈ ("9abc").toList, c ∈ lowerHexChars) ∧
      (∀ c ∈ ("4def").toList, c ∈ lowerHexChars) ∧
      (∀ c ∈ ("8a0b").toList, c ∈ lowerHexChars) ∧
      (∀ c ∈ ("123456789abc").toList, c ∈ lowerHexChars)) ∧
    ((generate_uuid (("12345678").toList ++ '-' :: (("9abc").toList ++ '-' ::
        (("4def").toList ++ '-' :: (("8a0b").toList ++ '-' ::
          ("123456789abc").toList))))).length = 24 ∧
      ∀ c ∈ generate_uuid (("12345678").toList ++ '-' :: (("9abc").toList ++ '-' ::
        (("4def").toList ++ '-' :: (("8a0b").toList ++ '-' ::
          ("123456789abc").toList)))), c ∈ upperHexChars) :=
  ⟨by decide,
    generate_uuid_hex24 (("12345678").toList) (("9abc").toList) (("4def").toList)
      (("8a0b").toList) (("123456789abc").toList)
      (by decide) (by decide) (by decide) (by decide) (by decide)
      (by decide) (by decide) (by decide) (by decide) (by decide)⟩

/-- C7 counterexample: `create_working_project` does not read the file it
overwrites — it reads the `.backup` path and writes the project path. -/
theorem create_working_project_paths_differ :
    create_working_project_readPath ≠ create_working_project_writePath := by
  decide

/-- C7 amended: the four patch scripts read and overwrite one and the same
path; `create_working_project` overwrites the project file but reads the
`.backup` copy of that path. -/
theorem scripts_single_file_paths :
    fix_build_config_readPath = fix_build_config_writePath ∧
    fix_share_extension_readPath = fix_share_extension_writePath ∧
    complete_share_extension_readPath = complete_share_extension_writePath ∧
    (∀ p : String, add_share_extension_target_readPath p =
      add_share_extension_target_writePath p) ∧
    create_working_project_readPath = create_working_project_writePath ++ ".backup" :=
  ⟨rfl, rfl, rfl, fun _ => rfl, rfl⟩

/-- C1 counterexample: on an input containing none of its patterns,
`fix_build_config` does not fail — it returns True and performs a write
(of the unchanged content) instead of returning False. -/
theorem fix_build_config_true_on_patternless_input :
    searchSectionAux ("XCConfigurationList") [] (("no markers").toList) = none ∧
    searchSectionAux ("XCBuildConfiguration") [] (("no markers").toList) = none ∧
    fix_build_config (("no markers").toList) =
      ⟨true, some (("no markers").toList)⟩ :=
  ⟨by decide, by decide, by decide⟩

/-- C1 amended: when its required pattern is absent,
`add_share_extension_target` prints a message, returns False and does not
write; `fix_build_config` never fails — when its section patterns are
absent it still returns True and writes the file back, with the content
unchanged. -/
theorem patch_behavior_on_absent_patterns :
    (∀ (u : Nat → List Char) (content : List Char),
      mainTargetSearch content = none →
      add_share_extension_target u content = ⟨false, none⟩) ∧
    (∀ content : List Char,
      searchSectionAux ("XCConfigurationList") [] content = none →
      searchSectionAux ("XCBuildConfiguration") [] content = none →
      fix_build_config content = ⟨true, some content⟩) := by
  constructor
  · intro u content h
    simp [add_share_extension_target, h]
  · intro content h1 h2
    simp only [fix_build_config]
    rw [spliceSection_none h1, spliceSection_none h2]

/-- Concrete instance of `patch_behavior_on_absent_patterns` (witness). -/
theorem patch_behavior_on_absent_patterns_witness :
    mainTargetSearch (("hello").toList) = none ∧
    add_share_extension_target (fun _ => []) (("hello").toList) = ⟨false, none⟩ ∧
    searchSectionAux ("XCConfigurationList") [] (("world").toList) = none ∧
    searchSectionAux ("XCBuildConfiguration") [] (("world").toList) = none ∧
    fix_build_config (("world").toList) = ⟨true, some (("world").toList)⟩ :=
  ⟨by decide, patch_behavior_on_absent_patterns.1 (fun _ => []) (("hello").toList) (by decide),
    by decide, by decide,
    patch_behavior_on_absent_patterns.2 (("world").toList) (by decide) (by decide)⟩

/-- C3: a well-formed input containing the two XCConfigurationList markers
exactly once is written back unchanged by `fix_build_config` (the
unescaped pattern does not match the literal markers), so the output
length equals the input length even though the fragment to insert is
nonempty — the claimed length equation fails. -/
theorem fix_build_config_length_bug :
    countOcc (beginMarker ("XCConfigurationList"))
      (("q/* Begin XCConfigurationList section */w/* End XCConfigurationList section */e").toList) = 1 ∧
    countOcc (endMarker ("XCConfigurationList"))
      (("q/* Begin XCConfigurationList section */w/* End XCConfigurationList section */e").toList) = 1 ∧
    fix_build_config
      (("q/* Begin XCConfigurationList section */w/* End XCConfigurationList section */e").toList) =
      ⟨true, some (("q/* Begin XCConfigurationList section */w/* End XCConfigurationList section */e").toList)⟩ ∧
    buildConfigListFrag.length ≠ 0 :=
  ⟨by decide, by decide, by decide, by decide⟩

/-- The input used for the C5 evidence: it matches the main-target pattern
of add_share_extension.py and contains the PBXNativeTarget marker pair
exactly once. -/
def mainTargetInput : List Char :=
  ("Clipboard = \x7bisa = PBXNativeTarget;name = Clipboard;productName = Clipboard;productReference = ABCDEF0123456789ABCDEF01;\x7d\n/* Begin PBXNativeTarget section */\nx\n/* End PBXNativeTarget section */\n").toList

/-- C5: on an input containing the begin and end markers exactly once (and
a matching main target), `add_share_extension_target` reports success but
returns the input text unchanged — no fragment is spliced in before the
end marker, because the unescaped section pattern does not match the
literal markers. -/
theorem add_share_extension_no_splice_on_literal_markers :
    countOcc (beginMarker ("PBXNativeTarget")) mainTargetInput = 1 ∧
    countOcc (endMarker ("PBXNativeTarget")) mainTargetInput = 1 ∧
    (mainTargetSearch mainTargetInput).isSome = true ∧
    add_share_extension_target (fun _ => ("A").toList) mainTargetInput =
      ⟨true, some mainTargetInput⟩ :=
  ⟨by decide, by decide, by decide, by decide⟩

/-- C4 amended: `fix_share_extension` fails loudly (returns False with no
patched result) precisely in the pattern-absent case: when the fragment
marker is not already present and the main-target pattern does not match. -/
theorem fix_share_extension_fails_when_pattern_absent :
    ∀ (u : Nat → List Char) (c : List Char),
      containsSub shareExtensionLit c = false →
      searchFixShare c = none →
      fix_share_extension u c = ⟨false, none⟩ := by
  intro u c h1 h2
  simp [fix_share_extension, h1, h2]

/-- Concrete instance of `fix_share_extension_fails_when_pattern_absent`
(witness). -/
theorem fix_share_extension_fails_when_pattern_absent_witness :
    containsSub shareExtensionLit (("zz").toList) = false ∧
    searchFixShare (("zz").toList) = none ∧
    fix_share_extension (fun _ => []) (("zz").toList) = ⟨false, none⟩ :=
  ⟨by decide, by decide,
    fix_share_extension_fails_when_pattern_absent (fun _ => []) (("zz").toList)
      (by decide) (by decide)⟩

/-- The duplicated-marker input used for the C4 counterexample. -/
def dupTargetInput : List Char :=
  litFixShareHead ++ ("a\x7d;\n").toList ++ litTestsRef ++
    litFixShareHead ++ ("a\x7d;\n").toList ++ litTestsRef

/-- C4 counterexample: with the begin anchor of the pattern occurring twice
in the input, `fix_share_extension` does not fail — it returns True and
produces a patched result. -/
theorem fix_share_extension_no_failure_on_duplicate_marker :
    countOcc litFixShareHead dupTargetInput = 2 ∧
    (fix_share_extension (fun _ => ("B").toList) dupTargetInput).returnValue = true ∧
    ((fix_share_extension (fun _ => ("B").toList) dupTargetInput).written).isSome = true :=
  ⟨by decide, by decide, by decide⟩

/-- The target fragment of fix_share_extension.py always contains the
text `ShareExtension` (inside one of its literal pieces), whatever the
uuids are. -/
theorem fixShareTargetFrag_contains (u0 u1 u2 u3 u4 u5 : List Char) :
    ∃ x y, fixShareTargetFrag u0 u1 u2 u3 u4 u5 = x ++ shareExtensionLit ++ y := by
  obtain ⟨x2, y2, hx2⟩ := containsSub_iff.mp
    (show containsSub shareExtensionLit (" /* ShareExtension */ = \x7b\n\t\t\tisa = PBXNativeTarget;\n\t\t\tbuildConfigurationList = ".toList) = true from by decide)
  refine ⟨("\n\t\t").toList ++ u0 ++ x2,
    y2 ++ (u1 ++ " /* Build configuration list for PBXNativeTarget \"ShareExtension\" */;\n\t\t\tbuildPhases = (\n\t\t\t\t".toList ++ u2 ++ " /* Sources */,\n\t\t\t\t".toList ++ u3 ++ " /* Frameworks */,\n\t\t\t\t".toList ++ u4 ++ " /* Resources */,\n\t\t\t);\n\t\t\tbuildRules = (\n\t\t\t);\n\t\t\tdependencies = (\n\t\t\t);\n\t\t\tname = ShareExtension;\n\t\t\tproductName = ShareExtension;\n\t\t\tproductReference = ".toList ++ u5 ++ " /* ShareExtension.appex */;\n\t\t\tproductType = \"com.apple.product-type.app-extension\";\n\t\t\x7d;\n\t\t".toList), ?_⟩
  rw [fixShareTargetFrag, hx2]
  simp [List.append_assoc]

/-- The matched text of `fixShareStage` begins with the pattern's literal
head. -/
theorem fixShareStage_head {s g : List Char} (h : fixShareStage s = some g) :
    ∃ tail, g = litFixShareHead ++ tail := by
  simp only [fixShareStage] at h
  split at h
  · simp at h
  · rename_i t1 h1
    split at h
    · simp at h
    · rename_i t3 h3
      split at h
      · simp at h
      · rw [Option.some.injEq] at h
        refine ⟨t1.takeWhile (fun c => c ≠ '\x7d') ++
          (litCloseBrace ++ t3.takeWhile isPySpace), ?_⟩
        rw [← h]
        simp [List.append_assoc]

/-- The result of `searchFixShare` begins with the pattern's literal
head. -/
theorem searchFixShare_head {s g : List Char} (h : searchFixShare s = some g) :
    ∃ tail, g = litFixShareHead ++ tail := by
  induction s with
  | nil => simp [searchFixShare] at h
  | cons c t ih =>
    rw [searchFixShare] at h
    split at h
    · rename_i hst
      rw [Option.some.injEq] at h
      subst h
      exact fixShareStage_head hst
    · exact ih h

/-- The matched text of `targetsStage` begins with the pattern's literal
head. -/
theorem targetsStage_head {s g : List Char} (h : targetsStage s = some g) :
    ∃ tail, g = litTargetsOpen ++ tail := by
  simp only [targetsStage] at h
  split at h
  · simp at h
  · rename_i t1 h1
    split at h
    · simp at h
    · rw [Option.some.injEq] at h
      refine ⟨t1.takeWhile isPySpace ++ litTargetsClip, ?_⟩
      rw [← h]
      simp [List.append_assoc]

/-- The result of `searchTargetsList` begins with the pattern's literal
head. -/
theorem searchTargetsList_head {s g : List Char} (h : searchTargetsList s = some g) :
    ∃ tail, g = litTargetsOpen ++ tail := by
  induction s with
  | nil => simp [searchTargetsList] at h
  | cons c t ih =>
    rw [searchTargetsList] at h
    split at h
    · rename_i hst
      rw [Option.some.injEq] at h
      subst h
      exact targetsStage_head hst
    · exact ih h

/-- The text inserted into the targets list always contains
`ShareExtension`. -/
theorem targetsInsert_contains (a : List Char) :
    ∃ x y, '\n' :: '\t' :: '\t' :: '\t' :: (a ++ (" /* ShareExtension */,").toList) =
      x ++ shareExtensionLit ++ y := by
  obtain ⟨x2, y2, hx2⟩ := containsSub_iff.mp
    (show containsSub shareExtensionLit ((" /* ShareExtension */,").toList) = true from
      by decide)
  exact ⟨'\n' :: '\t' :: '\t' :: '\t' :: (a ++ x2), y2, by rw [hx2]; simp⟩

/-- A string with a hole: if some occurrence region contains `pat`, the
whole string contains `pat`. -/
theorem contains_of_middle {pat mid x y xm ym s : List Char}
    (hs : s = x ++ mid ++ y) (hm : mid = xm ++ pat ++ ym) :
    containsSub pat s = true := by
  rw [containsSub_iff]
  exact ⟨x ++ xm, ym ++ y, by rw [hs, hm]; simp [List.append_assoc]⟩

/-- File content after one run of `fix_share_extension` (the written
content, or the previous content when nothing was written). -/
def fix_share_extension_run (u : Nat → List Char) (c : List Char) : List Char :=
  contentAfter (fix_share_extension u c) c

/-- C2 amended: `fix_share_extension` is idempotent at the file-content
level — it detects that the fragment marker `ShareExtension` is already
present and skips, so a second application (with any uuids) leaves the
content of the first application unchanged. -/
theorem fix_share_extension_idempotent (u1 u2 : Nat → List Char) (c : List Char) :
    fix_share_extension_run u2 (fix_share_extension_run u1 c) =
      fix_share_extension_run u1 c := by
  cases hcb : containsSub shareExtensionLit c with
  | true =>
    have h1 : fix_share_extension_run u1 c = c := by
      simp [fix_share_extension_run, fix_share_extension, hcb, contentAfter]
    rw [h1]
    simp [fix_share_extension_run, fix_share_extension, hcb, contentAfter]
  | false =>
    cases hs : searchFixShare c with
    | none =>
      have h1 : fix_share_extension_run u1 c = c := by
        simp [fix_share_extension_run, fix_share_extension, hcb, hs, contentAfter]
      rw [h1]
      simp [fix_share_extension_run, fix_share_extension, hcb, hs, contentAfter]
    | some g1 =>
      have hg1occ : ∃ x y, c = x ++ g1 ++ y := searchFixShare_sound hs
      obtain ⟨xh, hxh⟩ := searchFixShare_head hs
      have hg1ne : g1 ≠ [] := by
        rw [hxh]
        intro hcnil
        rcases List.append_eq_nil.mp hcnil with ⟨hh, _⟩
        exact absurd hh (by decide)
      obtain ⟨xf, yf, hf⟩ := fixShareTargetFrag_contains
        (u1 0) (u1 1) (u1 2) (u1 3) (u1 4) (u1 5)
      obtain ⟨x1, y1, hc1⟩ := replaceAll_contains
        (g1 ++ fixShareTargetFrag (u1 0) (u1 1) (u1 2) (u1 3) (u1 4) (u1 5))
        hg1ne (by
          obtain ⟨x, y, hxy⟩ := hg1occ
          exact ⟨x.length, occursAt_of_decomp hxy⟩)
      have hcont1 : containsSub shareExtensionLit
          (replaceAll g1 (g1 ++ fixShareTargetFrag (u1 0) (u1 1) (u1 2) (u1 3) (u1 4) (u1 5)) c)
          = true :=
        contains_of_middle hc1
          (show g1 ++ fixShareTargetFrag (u1 0) (u1 1) (u1 2) (u1 3) (u1 4) (u1 5) =
              (g1 ++ xf) ++ shareExtensionLit ++ yf from by
            rw [hf]; simp [List.append_assoc])
      have hcont : containsSub shareExtensionLit (fix_share_extension_run u1 c) = true := by
        simp only [fix_share_extension_run, fix_share_extension, hcb, hs, contentAfter,
          Bool.false_eq_true, if_false, Option.getD_some]
        split
        · exact hcont1
        · rename_i g ht
          have hgne : g ≠ [] := by
            obtain ⟨tg, htg⟩ := searchTargetsList_head ht
            rw [htg]
            intro hcnil
            rcases List.append_eq_nil.mp hcnil with ⟨hh, _⟩
            exact absurd hh (by decide)
          obtain ⟨x2, y2, hc2⟩ := replaceAll_contains
            (g ++ '\n' :: '\t' :: '\t' :: '\t' ::
              ((u1 0) ++ (" /* ShareExtension */,").toList)) hgne (by
              obtain ⟨x, y, hxy⟩ := searchTargetsList_sound ht
              exact ⟨x.length, occursAt_of_decomp hxy⟩)
          obtain ⟨xi, yi, hi⟩ := targetsInsert_contains (u1 0)
          exact contains_of_middle hc2
            (show g ++ '\n' :: '\t' :: '\t' :: '\t' ::
                ((u1 0) ++ (" /* ShareExtension */,").toList) =
                (g ++ xi) ++ shareExtensionLit ++ yi from by
              rw [hi]; simp [List.append_assoc])
      generalize hd : fix_share_extension_run u1 c = d at hcont ⊢
      simp [fix_share_extension_run, fix_share_extension, hcont, contentAfter]

/-- File content after one run of `fix_build_config` (which always
writes). -/
def fix_build_config_run (c : List Char) : List Char :=
  contentAfter (fix_build_config c) c

/-- An input on which fix_build_config.py's XCConfigurationList pattern
does match (the `*` of the pattern are quantifiers, so ` Begin ... /` and
` End ... /` satisfy it) and the matched text contains the literal end
marker. -/
def nonIdemInput : List Char :=
  (" Begin XCConfigurationList section //* End XCConfigurationList section */ End XCConfigurationList section /").toList

set_option maxHeartbeats 4000000 in
/-- C2 counterexample: `fix_build_config` is not idempotent — on
`nonIdemInput` a second run inserts its configuration fragment a second
time, so running it twice does not equal running it once. -/
theorem fix_build_config_not_idempotent :
    fix_build_config_run (fix_build_config_run nonIdemInput) ≠
      fix_build_config_run nonIdemInput := by
  decide
